import Mathlib

/-!
Shallow embedding of the GBA ("GGA") core of the gamegirl emulator:
the cartridge backup-memory state machines (`core/src/gga/cartridge.rs`),
the memory bus value paths and wait-state tables (`core/src/gga/memory.rs`),
and the DMA engine (`core/src/gga/dma.rs`), together with proofs about them.

Machine integers are modelled as `Nat` with explicit `% 2 ^ w` where the
source relies on wrapping; byte buffers (`Vec<u8>`) are modelled as a length
plus a contents function.  Components of the emulator that are out of scope
of the embedded fragment (timers, APU, scheduler) appear as abstract
function-valued fields of the state.
-/

/-! ## Numeric helpers (core/src/numutil.rs) -/

/-- `NumExt::bit`: get the state of the given bit, returning 0/1. -/
def bitOf (x i : ℕ) : ℕ := (x >>> i) &&& 1

/-- `NumExt::is_bit`: `(self & (1 << bit)) != 0`. -/
def isBit (x i : ℕ) : Bool := x &&& (1 <<< i) != 0

/-- `NumExt::bits`: `(self >> start) & ((1 << len) - 1)`. -/
def bitsOf (x start len : ℕ) : ℕ := (x >>> start) &&& ((1 <<< len) - 1)

/-- `NumExt::set_bit` at u16 width: `(self & ((1 << bit) ^ MAX)) | ((state as u16) << bit)`. -/
def setBit16 (x i : ℕ) (b : Bool) : ℕ :=
  (x &&& ((1 <<< i) ^^^ 0xFFFF)) ||| ((if b then 1 else 0) <<< i)

/-- `numutil::hword`: `((hi as u16) << 8) | lo`. -/
def hword (lo hi : ℕ) : ℕ := (hi <<< 8) ||| lo

/-- `numutil::word`: `((hi as u32) << 16) | lo`. -/
def word (lo hi : ℕ) : ℕ := (hi <<< 16) ||| lo

/-- `U16Ext::low`. -/
def lowByte (x : ℕ) : ℕ := x % 2 ^ 8

/-- `U16Ext::high`. -/
def highByte (x : ℕ) : ℕ := (x >>> 8) % 2 ^ 8

/-- `memory::KB`. -/
def KB : ℕ := 1024

/-! ## Byte buffers

A `Vec<u8>` together with the index arithmetic the source performs on it.
Out-of-bounds indexing panics in Rust; `Ram.get`/`Ram.set` return a default /
leave the buffer unchanged instead, and no theorem below exercises that case. -/

structure Ram where
  len : ℕ
  data : ℕ → ℕ

/-- `ram[i]` (read). -/
def Ram.get (r : Ram) (i : ℕ) : ℕ := if i < r.len then r.data i % 256 else 0

/-- `ram[i] = v`. -/
def Ram.set (r : Ram) (i v : ℕ) : Ram :=
  if i < r.len then { r with data := fun j => if j = i then v % 256 else r.data j } else r

/-- `for mem in ram { *mem = v }` — fill the whole buffer. -/
def Ram.fill (r : Ram) (v : ℕ) : Ram :=
  { r with data := fun j => if j < r.len then v % 256 else r.data j }

/-- `for mem in ram.iter_mut().skip(start).take(cnt) { *mem = v }`:
set the window `[start, min (start+cnt) len)` to `v`. -/
def Ram.setRange (r : Ram) (start cnt v : ℕ) : Ram :=
  { r with data := fun j => if start ≤ j ∧ j < min (start + cnt) r.len then v % 256 else r.data j }

/-- The store loop of `Eeprom::write`'s Write arm:
`for byte in ram.iter_mut().skip(idx).take(8).rev() { *byte = data as u8; data >>= 8 }`.
The window `[idx, hi)` with `hi = min (idx+8) len` is walked in reverse, so the
element at position `p` receives byte `hi - 1 - p` of `data` (big-endian). -/
def Ram.storeBE64 (r : Ram) (idx data : ℕ) : Ram :=
  let hi := min (idx + 8) r.len
  { r with data := fun p => if idx ≤ p ∧ p < hi then (data >>> (8 * (hi - 1 - p))) % 256
           else r.data p }

/-- The load loop of `Eeprom::write`'s Read arm:
`for byte in ram.iter_mut().skip(pos).take(cnt) { acc <<= 8; acc |= *byte }` on u128. -/
def Ram.loadBE64 (r : Ram) (pos cnt acc : ℕ) : ℕ :=
  match cnt with
  | 0 => acc
  | c + 1 =>
    if pos < r.len then r.loadBE64 (pos + 1) c (((acc <<< 8) ||| (r.data pos % 256)) % 2 ^ 128)
    else acc

/-! ## EEPROM (core/src/gga/cartridge.rs) -/

/-- `EepromSize`; `val` gives the Rust enum discriminant (= address size in bits). -/
inductive EepromSize
  | Unknown
  | E512
  | E8k
deriving DecidableEq

def EepromSize.val : EepromSize → ℕ
  | .Unknown => 99
  | .E512 => 6
  | .E8k => 14

/-- `EepromCmd`; `val` gives the Rust enum discriminant (= payload length). -/
inductive EepromCmd
  | Nothing
  | Read
  | Write
deriving DecidableEq

def EepromCmd.val : EepromCmd → ℕ
  | .Nothing => 0
  | .Read => 1
  | .Write => 65

/-- `Eeprom`.  `recvBuffer`/`sendBuffer` are u128, `recvCount`/`sendCount` u32;
`send_count` sits in a `RefCell` in the source, so `Eeprom::read` is modelled as
returning the updated state alongside the value. -/
structure Eeprom where
  size : EepromSize
  command : EepromCmd
  recvBuffer : ℕ
  recvCount : ℕ
  sendBuffer : ℕ
  sendCount : ℕ
deriving DecidableEq

/-- `Eeprom::cmd_size`: `2 + self.size as u32 + cmd as u32`. -/
def Eeprom.cmd_size (e : Eeprom) (cmd : EepromCmd) : ℕ := 2 + e.size.val + cmd.val

/-- `Eeprom::read`. -/
def Eeprom.read (e : Eeprom) : ℕ × Eeprom :=
  if e.sendCount = 0 then (1, e)
  else
    let c := e.sendCount - 1
    ((((e.sendBuffer >>> c) % 2 ^ 16) &&& 1), { e with sendCount := c })

/-- `Eeprom::reset_rx`. -/
def Eeprom.reset_rx (e : Eeprom) : Eeprom := { e with recvCount := 0, recvBuffer := 0 }

/-- `Eeprom::write`.  The `EepromCmd::Nothing` arm panics in the source
(`panic` with message "invalid command!"); it is unreachable from a reset
receive state and is modelled as the identity. -/
def Eeprom.write (e : Eeprom) (value : ℕ) (ram : Ram) : Eeprom × Ram :=
  let bit := value &&& 1
  let rb := ((e.recvBuffer <<< 1) ||| bit) % 2 ^ 128
  let rc := e.recvCount + 1
  let e1 : Eeprom := { e with recvBuffer := rb, recvCount := rc }
  if rc = 2 then
    (match rb &&& 3 with
     | 3 => { e1 with command := EepromCmd.Read }
     | 2 => { e1 with command := EepromCmd.Write }
     | _ => { e1.reset_rx with command := EepromCmd.Nothing }, ram)
  else if rc = e1.cmd_size e1.command then
    let rb1 := rb >>> 1
    match e1.command with
    | EepromCmd.Nothing => ({ e1 with recvBuffer := rb1 }, ram)
    | EepromCmd.Read =>
      let addr := bitsOf (rb1 % 2 ^ 32) 0 e1.size.val &&& 0x3FF
      let idx := addr <<< 3
      let e2 : Eeprom := { e1 with
        recvBuffer := rb1
        sendBuffer := ram.loadBE64 idx 8 e1.sendBuffer
        sendCount := 68 }
      (e2.reset_rx, ram)
    | EepromCmd.Write =>
      let data := rb1 % 2 ^ 64
      let addr := bitsOf ((rb1 >>> 64) % 2 ^ 32) 0 e1.size.val &&& 0x3FF
      let idx := addr <<< 3
      let ram1 := ram.storeBE64 idx data
      let e2 : Eeprom := { e1 with
        recvBuffer := rb1
        sendBuffer := 2 ^ 128 - 1
        sendCount := 128 }
      (e2.reset_rx, ram1)
  else (e1, ram)

/-- `Eeprom::dma3_started`. -/
def Eeprom.dma3_started (e : Eeprom) (dst cnt : ℕ) : Eeprom :=
  let e1 :=
    if e.size = EepromSize.Unknown ∧ 0xD000000 ≤ dst ∧ dst ≤ 0xDFFFFFF then
      { e with size :=
          if cnt = 9 ∨ cnt = 73 then EepromSize.E512
          else if cnt = 17 ∨ cnt = 81 then EepromSize.E8k
          else EepromSize.Unknown }
    else e
  e1.reset_rx

/-! ## Flash (core/src/gga/cartridge.rs) -/

inductive FlashCmdStage
  | FirstWritten
  | SecondWritten
deriving DecidableEq

inductive FlashMode
  | Regular
  | Write
  | Id
  | Erase
  | BankSelect
deriving DecidableEq

structure FlashState where
  command_stage : Option FlashCmdStage
  mode : FlashMode
deriving DecidableEq

/-- `FlashState::write(addr, value, ram, bank)`.  The `bank` parameter is
`Some` for 128K chips, `None` for 64K ones; the bank-select arm's
`bank.unwrap()` panics on `None` in the source and is modelled as leaving
the (absent) bank unchanged. -/
def FlashState.write (st : FlashState) (addr value : ℕ) (ram : Ram) (bank : Option ℕ) :
    FlashState × Ram × Option ℕ :=
  if addr = 0 ∧ st.mode = FlashMode.BankSelect then
    ({ st with mode := FlashMode.Regular }, ram, bank.map fun _ => value &&& 1)
  else if st.mode = FlashMode.Write then
    ({ st with mode := FlashMode.Regular },
     (if bank = some 1 then ram.set (addr ||| 0x10000) value else ram.set addr value), bank)
  else if addr = 0x5555 ∧ value = 0xAA ∧ st.command_stage = none then
    ({ st with command_stage := some FlashCmdStage.FirstWritten }, ram, bank)
  else if addr = 0x2AAA ∧ value = 0x55 ∧ st.command_stage = some FlashCmdStage.FirstWritten then
    ({ st with command_stage := some FlashCmdStage.SecondWritten }, ram, bank)
  else if value = 0x30 ∧ st.command_stage = some FlashCmdStage.SecondWritten then
    -- Erase 4K sector
    let ram1 :=
      if st.mode = FlashMode.Erase then
        let a := if bank = some 1 then (addr &&& 0xF000) ||| 0x10000 else addr &&& 0xF000
        ram.setRange a 0x1000 0xFF
      else ram
    ({ command_stage := none, mode := FlashMode.Regular }, ram1, bank)
  else if addr = 0x5555 ∧ st.command_stage = some FlashCmdStage.SecondWritten then
    let mode1 :=
      if value = 0x80 then FlashMode.Erase
      else if value = 0x10 then FlashMode.Regular
      else if value = 0xA0 then FlashMode.Write
      else if value = 0xB0 ∧ bank.isSome then FlashMode.BankSelect
      else if value = 0x90 then FlashMode.Id
      else if value = 0xF0 then FlashMode.Regular
      else st.mode
    let ram1 := if value = 0x10 ∧ st.mode = FlashMode.Erase then ram.fill 0xFF else ram
    ({ command_stage := none, mode := mode1 }, ram1, bank)
  else (st, ram, bank)

/-! ## Cartridge (core/src/gga/cartridge.rs) -/

inductive SaveType
  | Nothing
  | Eeprom (e : Eeprom)
  | Sram
  | Flash64 (state : FlashState)
  | Flash128 (state : FlashState) (bank : ℕ)

structure Cartridge where
  rom : Ram
  ram : Ram
  save_type : SaveType

/-- `Cartridge::read_ram_byte`; `FLASH64_ID = [0xC2, 0x1C]`,
`FLASH128_ID = [0xC2, 0x09]`. -/
def Cartridge.read_ram_byte (c : Cartridge) (addr : ℕ) : ℕ :=
  match c.save_type with
  | SaveType.Flash64 st =>
    if st.mode = FlashMode.Id then (if addr &&& 1 = 0 then 0xC2 else 0x1C)
    else c.ram.get addr
  | SaveType.Flash128 st bank =>
    if st.mode = FlashMode.Id then (if addr &&& 1 = 0 then 0xC2 else 0x09)
    else if bank = 1 then c.ram.get (addr ||| 0x10000)
    else c.ram.get addr
  | SaveType.Sram => c.ram.get (addr &&& 0x7FFF)
  | _ => 0xFF

/-- `Cartridge::read_ram_hword`.  `Eeprom::read` mutates `send_count` through
a `RefCell`; the updated cartridge is returned alongside the value. -/
def Cartridge.read_ram_hword (c : Cartridge) : ℕ × Cartridge :=
  match c.save_type with
  | SaveType.Eeprom e =>
    let (v, e1) := e.read
    (v, { c with save_type := SaveType.Eeprom e1 })
  | _ => (0, c)

/-- `Cartridge::write_ram_byte`. -/
def Cartridge.write_ram_byte (c : Cartridge) (addr value : ℕ) : Cartridge :=
  match c.save_type with
  | SaveType.Flash64 st =>
    let r := FlashState.write st addr value c.ram none
    { c with save_type := SaveType.Flash64 r.1, ram := r.2.1 }
  | SaveType.Flash128 st bank =>
    let r := FlashState.write st addr value c.ram (some bank)
    { c with save_type := SaveType.Flash128 r.1 (r.2.2.getD bank), ram := r.2.1 }
  | SaveType.Sram => { c with ram := c.ram.set (addr &&& 0x7FFF) value }
  | _ => c

/-- `Cartridge::write_ram_hword`. -/
def Cartridge.write_ram_hword (c : Cartridge) (value : ℕ) : Cartridge :=
  match c.save_type with
  | SaveType.Eeprom e =>
    let r := e.write value c.ram
    { c with save_type := SaveType.Eeprom r.1, ram := r.2 }
  | _ => c

/-- `Cartridge::is_eeprom_at`. -/
def Cartridge.is_eeprom_at (c : Cartridge) (addr : ℕ) : Bool :=
  (match c.save_type with | SaveType.Eeprom _ => true | _ => false)
    && decide (c.rom.len ≤ 16 * (KB * KB) ∨ 0x0DFFFF00 ≤ addr)

/-! ## Driving the EEPROM serial protocol

`feedBits n x er` clocks the low `n` bits of `x` into the EEPROM through
`Eeprom::write` (via `Cartridge::write_ram_hword`), most significant bit
first — exactly the order in which a game's DMA3 shifts a command stream in.
`readN n e` performs `n` successive `Eeprom::read`s. -/

def feedBits : ℕ → ℕ → Eeprom × Ram → Eeprom × Ram
  | 0, _, er => er
  | m + 1, x, er => feedBits m x (Eeprom.write er.1 (x >>> m) er.2)

def readN : ℕ → Eeprom → List ℕ × Eeprom
  | 0, e => ([], e)
  | n + 1, e =>
    let r := e.read
    let l := readN n r.2
    (r.1 :: l.1, l.2)

/-! ## Wait states and the IF register (core/src/gga/memory.rs) -/

/-- `Access` (core/src/gga/mod.rs): sequential or non-sequential access. -/
inductive Access
  | Seq
  | NonSeq
deriving DecidableEq

/-- `GameGirlAdv::WS_NONSEQ: [u16; 4] = [5, 4, 3, 9]`. -/
def WS_NONSEQ (i : ℕ) : ℕ := [5, 4, 3, 9].getD i 0

/-- `GameGirlAdv::calc_wait_time::<2>(addr, ty)` with `waitcnt = self[WAITCNT]`
(also used for byte accesses; `update_wait_times` fills `wait_other` from it).
The match arms are kept in source order; arms requiring `W = 4` are dropped. -/
def calc_wait_time16 (waitcnt addr : ℕ) (ty : Access) : ℕ :=
  if 0x02000000 ≤ addr ∧ addr ≤ 0x02FFFFFF then 3
  else if 0x08000000 ≤ addr ∧ addr ≤ 0x09FFFFFF ∧ ty = Access.Seq then
    3 - bitOf waitcnt 4
  else if 0x08000000 ≤ addr ∧ addr ≤ 0x09FFFFFF ∧ ty = Access.NonSeq then
    WS_NONSEQ (bitsOf waitcnt 2 2)
  else if 0x0A000000 ≤ addr ∧ addr ≤ 0x0BFFFFFF ∧ ty = Access.Seq then
    5 - bitOf waitcnt 7 * 3
  else if 0x0A000000 ≤ addr ∧ addr ≤ 0x0BFFFFFF ∧ ty = Access.NonSeq then
    WS_NONSEQ (bitsOf waitcnt 5 2)
  else if 0x0C000000 ≤ addr ∧ addr ≤ 0x0DFFFFFF ∧ ty = Access.Seq then
    9 - bitOf waitcnt 10 * 7
  else if 0x0C000000 ≤ addr ∧ addr ≤ 0x0DFFFFFF ∧ ty = Access.NonSeq then
    WS_NONSEQ (bitsOf waitcnt 8 2)
  else if 0x0E000000 ≤ addr ∧ addr ≤ 0x0EFFFFFF then WS_NONSEQ (bitsOf waitcnt 0 2)
  else 1

/-- `GameGirlAdv::calc_wait_time::<4>(addr, ty)`: the cartridge bus is
16 bits wide, so a ROM word access costs a half-word access plus a
sequential half-word access. -/
def calc_wait_time32 (waitcnt addr : ℕ) (ty : Access) : ℕ :=
  if 0x02000000 ≤ addr ∧ addr ≤ 0x02FFFFFF then 6
  else if 0x05000000 ≤ addr ∧ addr ≤ 0x06FFFFFF then 2
  else if 0x08000000 ≤ addr ∧ addr ≤ 0x0DFFFFFF then
    calc_wait_time16 waitcnt addr ty + calc_wait_time16 waitcnt addr Access.Seq
  else if 0x0E000000 ≤ addr ∧ addr ≤ 0x0EFFFFFF then WS_NONSEQ (bitsOf waitcnt 0 2)
  else 1

/-- The `IF` arm of `GameGirlAdv::set_mmio` (memory.rs 403-411):
`self[IF] &= !value`, then the interrupt-epilogue bookkeeping on the cached
BIOS read value.  `!value` at u16 width is `value ^^^ 0xFFFF`.  The other
arms of `set_mmio` dispatch to peripherals outside this fragment; the
register offset `IF = 0x202` follows the spec's MMIO map, the `gga::addr`
module not being part of the sources. -/
def set_mmio_if (ifReg biosValue value : ℕ) : ℕ × ℕ :=
  (ifReg &&& (value ^^^ 0xFFFF),
   if biosValue = 0xE25EF004 then 0xE55EC002 else biosValue)

/-! ## GGA bus: page tables and memory reads (core/src/gga/memory.rs)

The bus model embeds the value path of the untimed read functions.  Two
subsystems the embedded reads can dispatch into are abstracted as
function-valued state fields: the BIOS blob (`bios.bin`, a static byte array
that is not part of the sources) as `biosData`, and `get_mmio` (which
dispatches into the timer, APU and PPU register files) as `mmioRead`, whose
value is the u16 the real `get_mmio` returns.  The timing halves of the
`read_*` wrappers (`wait_time`, `add_sn_cycles`) only advance the scheduler
clock and the prefetch counter and do not affect the returned value. -/

/-- Little-endian read of `n` bytes starting at byte offset `off`: the value
the fast path's `transmute::<_, *const T>(ptr).read()` yields. -/
def Ram.readLE (r : Ram) (off : ℕ) : ℕ → ℕ
  | 0 => 0
  | n + 1 => r.get off ||| (Ram.readLE r (off + 1) n <<< 8)

structure GGA where
  ewram : Ram
  iwram : Ram
  palette : Ram
  vram : Ram
  oam : Ram
  cart : Cartridge
  biosValue : ℕ
  biosData : ℕ → ℕ
  pc : ℕ
  thumb : Bool
  mmioRead : ℕ → ℕ

/-- `PAGE_SIZE` (memory.rs line 24). -/
def PAGE_SIZE : ℕ := 0x8000

/-- The `MASK` table of `GameGirlAdv::page`, indexed by region nibble. -/
def MASK (i : ℕ) : ℕ :=
  [0, 0, 0x7FFF, 0x7FFF, 0, 0x3FF, 0x7FFF, 0x3FF,
   0x7FFF, 0x7FFF, 0x7FFF, 0x7FFF, 0x7FFF, 0x7FFF, 0, 0].getD i 0

/-- The `offs` helper of `GameGirlAdv::get_page`: a pointer into region `reg`
at byte offset `offs % reg.len()`.  A mapped pointer is `some (reg, o)` and
the null pointer of the unmapped arms is `none`; an empty region (where the
Rust `%` would fault) is also unmapped here, and never occurs at the mapped
call sites. -/
def region_offs (reg : Ram) (o : ℕ) : Option (Ram × ℕ) :=
  if reg.len = 0 then none else some (reg, o % reg.len)

/-- `GameGirlAdv::get_page::<R>(a)` (memory.rs 583-612).  The VRAM-mirror arm
recurses on `a & 0x601_FFFF`, which always lands in the non-recursive
0x0600_0000..=0x0601_FFFF arms, so the recursion depth is at most one; it is
made structural with a fuel argument, and every caller passes fuel 2, which
is exact. -/
def GGA.get_page_f (g : GGA) (R : Bool) : ℕ → ℕ → Option (Ram × ℕ)
  | 0, _ => none
  | fuel + 1, a =>
    if 0x2000000 ≤ a ∧ a ≤ 0x2FFFFFF then region_offs g.ewram (a - 0x2000000)
    else if 0x3000000 ≤ a ∧ a ≤ 0x3FFFFFF then region_offs g.iwram (a - 0x3000000)
    else if 0x5000000 ≤ a ∧ a ≤ 0x5FFFFFF then region_offs g.palette (a - 0x5000000)
    else if 0x6000000 ≤ a ∧ a ≤ 0x6017FFF then region_offs g.vram (a - 0x6000000)
    else if 0x7000000 ≤ a ∧ a ≤ 0x7FFFFFF then region_offs g.oam (a - 0x7000000)
    else if 0x8000000 ≤ a ∧ a ≤ 0x9FFFFFF ∧ R = true ∧ a - 0x8000000 ≤ g.cart.rom.len then
      region_offs g.cart.rom (a - 0x8000000)
    else if 0xA000000 ≤ a ∧ a ≤ 0xBFFFFFF ∧ R = true ∧ a - 0xA000000 ≤ g.cart.rom.len then
      region_offs g.cart.rom (a - 0xA000000)
    else if 0xC000000 ≤ a ∧ a ≤ 0xDFF7FFF ∧ R = true ∧ a - 0xC000000 ≤ g.cart.rom.len then
      region_offs g.cart.rom (a - 0xC000000)
    else if 0x6018000 ≤ a ∧ a ≤ 0x601FFFF then region_offs g.vram (0x10000 + (a - 0x6000000))
    else if 0x6020000 ≤ a ∧ a ≤ 0x6FFFFFF then GGA.get_page_f g R fuel (a &&& 0x601FFFF)
    else none

/-- `GameGirlAdv::page::<WRITE>(addr)` (memory.rs 505-539), composed with the
table initialization `read_pages[i] = get_page::<true>(i * PAGE_SIZE)` /
`write_pages[i] = get_page::<false>(i * PAGE_SIZE)` of `init_memory`: the
table entry for `addr` is `get_page` of the page base, and the returned
pointer is that entry advanced by `addr & MASK[(addr >> 24) & 0xF]`.  A
pointer ≤ 0x8000 — here: an unmapped page — falls back to the slow path. -/
def GGA.page (g : GGA) (WRITE : Bool) (addr : ℕ) : Option (Ram × ℕ) :=
  match GGA.get_page_f g (!WRITE) 2 (((addr >>> 15) &&& 8191) * PAGE_SIZE) with
  | none => none
  | some (reg, base) => some (reg, base + (addr &&& MASK ((addr >>> 24) &&& 0xF)))

/-- `Cpu::ror_s0(value, by)`.  Modelled from the spec: the CPU module is not
part of the sources; the spec specifies a plain 32-bit rotate right, and the
embedded call sites only use rotations of 8, 16 and 24 bits. -/
def ror_s0 (v b : ℕ) : ℕ := ((v >>> (b % 32)) ||| (v <<< (32 - b % 32))) % 2 ^ 32

mutual

/-- `GameGirlAdv::get_byte` (memory.rs 116-132): the fast path of `get` with
alignment mask `!0` inlined, then the slow-path match.  All reads are
fuel-indexed (`none` = out of fuel); the recursion depth of the real code is
bounded, and the theorems instantiate ample fuel. -/
def GGA.get_byte (g : GGA) : ℕ → ℕ → Option ℕ
  | 0, _ => none
  | fuel + 1, addr =>
    match GGA.page g false (addr &&& 0xFFFFFFFF) with
    | some (reg, off) => some (Ram.readLE reg off 1)
    | none =>
      if addr ≤ 0x3FFF ∧ g.pc < 0x1000000 then some (g.biosData (addr &&& 0x3FFF))
      else if addr ≤ 0x3FFF then some (g.biosValue % 2 ^ 8)
      else if 0x4000000 ≤ addr ∧ addr ≤ 0x4FFFFFF ∧ isBit addr 0 = true then
        some (highByte (g.mmioRead addr % 2 ^ 16))
      else if 0x4000000 ≤ addr ∧ addr ≤ 0x4FFFFFF then
        some (lowByte (g.mmioRead addr % 2 ^ 16))
      else if 0xE000000 ≤ addr ∧ addr ≤ 0xFFFFFFF then
        some (g.cart.read_ram_byte (addr &&& 0xFFFF))
      else if 0xDFF8000 ≤ addr ∧ addr ≤ 0xDFFFFFF ∧ addr - 0x8000000 ≤ g.cart.rom.len then
        some (g.cart.rom.get (addr - 0x8000000))
      else GGA.invalid_read g false fuel addr
termination_by structural fuel _ => fuel

/-- `GameGirlAdv::get_hword` (memory.rs 137-158): fast path with mask `!1`,
then the slow-path match.  The EEPROM arm's value is the one
`Cartridge::read_ram_hword` returns; its interior send-counter decrement is
covered by the cartridge-level theorems. -/
def GGA.get_hword (g : GGA) : ℕ → ℕ → Option ℕ
  | 0, _ => none
  | fuel + 1, addr =>
    match GGA.page g false (addr &&& 0xFFFFFFFE) with
    | some (reg, off) => some (Ram.readLE reg off 2)
    | none =>
      if addr ≤ 0x3FFF ∧ g.pc < 0x1000000 then
        some (hword (g.biosData (addr &&& 0x3FFF)) (g.biosData ((addr &&& 0x3FFF) + 1)))
      else if addr ≤ 0x3FFF then some (g.biosValue % 2 ^ 16)
      else if 0x4000000 ≤ addr ∧ addr ≤ 0x4FFFFFF then some (g.mmioRead addr % 2 ^ 16)
      else if 0xD000000 ≤ addr ∧ addr ≤ 0xDFFFFFF ∧ g.cart.is_eeprom_at addr = true then
        some (g.cart.read_ram_hword).1
      else if 0xDFF8000 ≤ addr ∧ addr ≤ 0xDFFFFFF then
        (GGA.get_byte g fuel addr).bind fun lo =>
          (GGA.get_byte g fuel (addr + 1)).map fun hi => hword lo hi
      else if 0xE000000 ≤ addr ∧ addr ≤ 0xFFFFFFF then
        some (hword (g.cart.read_ram_byte (addr &&& 0xFFFF))
          (g.cart.read_ram_byte (addr &&& 0xFFFF)))
      else GGA.invalid_read g false fuel addr
termination_by structural fuel _ => fuel

/-- `GameGirlAdv::get_word` (memory.rs 163-186): fast path with mask `!3`,
then the slow-path match. -/
def GGA.get_word (g : GGA) : ℕ → ℕ → Option ℕ
  | 0, _ => none
  | fuel + 1, addr =>
    match GGA.page g false (addr &&& 0xFFFFFFFC) with
    | some (reg, off) => some (Ram.readLE reg off 4)
    | none =>
      if addr ≤ 0x3FFF ∧ g.pc < 0x1000000 then
        some (word
          (hword (g.biosData (addr &&& 0x3FFF)) (g.biosData ((addr &&& 0x3FFF) + 1)))
          (hword (g.biosData ((addr &&& 0x3FFF) + 2)) (g.biosData ((addr &&& 0x3FFF) + 3))))
      else if addr ≤ 0x3FFF then some (g.biosValue % 2 ^ 32)
      else if 0x4000000 ≤ addr ∧ addr ≤ 0x4FFFFFF then
        some (word (g.mmioRead addr % 2 ^ 16) (g.mmioRead (addr + 2) % 2 ^ 16))
      else if 0xDFF8000 ≤ addr ∧ addr ≤ 0xDFFFFFF then
        (GGA.get_hword g fuel addr).bind fun lo =>
          (GGA.get_hword g fuel (addr + 2)).map fun hi => word lo hi
      else if 0xE000000 ≤ addr ∧ addr ≤ 0xFFFFFFF then
        some (word (hword (g.cart.read_ram_byte (addr &&& 0xFFFF))
                      (g.cart.read_ram_byte (addr &&& 0xFFFF)))
                   (hword (g.cart.read_ram_byte (addr &&& 0xFFFF))
                      (g.cart.read_ram_byte (addr &&& 0xFFFF))))
      else GGA.invalid_read g true fuel addr
termination_by structural fuel _ => fuel

/-- `GameGirlAdv::invalid_read::<WORD>` (memory.rs 234-271): inside the ROM
windows, the out-of-bounds cartridge address echo `word(low, low + 1)` with
`low` the low 16 bits of the (aligned) address shifted right by one;
otherwise the open-bus value derived from the current PC. -/
def GGA.invalid_read (g : GGA) (WORD : Bool) : ℕ → ℕ → Option ℕ
  | 0, _ => none
  | fuel + 1, addr =>
    if 0x8000000 ≤ addr ∧ addr ≤ 0xDFFFFFF then
      some (word (((addr &&& (if WORD then 0xFFFFFFFC else 0xFFFFFFFE)) >>> 1) % 2 ^ 16)
        ((((addr &&& (if WORD then 0xFFFFFFFC else 0xFFFFFFFE)) >>> 1) % 2 ^ 16 + 1) % 2 ^ 16))
    else if 0xFFFFFFF < g.pc ∨ (0x3FFF < g.pc ∧ g.pc < 0x2000000) then some 0
    else if g.thumb = false then GGA.get_word g fuel g.pc
    else if g.pc >>> 24 = 2 ∨ g.pc >>> 24 = 5 ∨ g.pc >>> 24 = 6
        ∨ (8 ≤ g.pc >>> 24 ∧ g.pc >>> 24 ≤ 0xD) then
      (GGA.get_hword g fuel g.pc).map fun h => word h h
    else if isBit g.pc 1 = true then
      (GGA.get_hword g fuel (g.pc - 2)).bind fun lo =>
        (GGA.get_hword g fuel g.pc).map fun hi => word lo hi
    else if g.pc >>> 24 = 0 ∨ g.pc >>> 24 = 7 then
      (GGA.get_hword g fuel g.pc).bind fun lo =>
        (GGA.get_hword g fuel (g.pc + 2)).map fun hi => word lo hi
    else
      (GGA.get_hword g fuel g.pc).bind fun lo =>
        (GGA.get_hword g fuel (g.pc - 2)).map fun hi => word lo hi
termination_by structural fuel _ => fuel

end

/-- Value path of `GameGirlAdv::read_word_ldrswp` (memory.rs 101-111): the
untimed word read, rotated right by `(addr & 3) << 3` when unaligned. -/
def GGA.read_word_ldrswp_val (g : GGA) (fuel addr : ℕ) : Option ℕ :=
  (GGA.get_word g fuel addr).map fun val =>
    if addr &&& 3 ≠ 0 then ror_s0 val ((addr &&& 3) <<< 3) else val

/-- Value path of `GameGirlAdv::read_hword` (memory.rs 64-75): the untimed
half-word read, rotated right by 8 when the address is odd. -/
def GGA.read_hword_val (g : GGA) (fuel addr : ℕ) : Option ℕ :=
  if isBit addr 0 = true then (GGA.get_hword g fuel addr).map fun val => ror_s0 val 8
  else GGA.get_hword g fuel addr

/-! ## GGA DMA channels (core/src/gga/dma.rs)

The DMA model embeds `Dmas` together with the slice of `GameGirlAdv` state
it touches.  The bus (`read_word`/`write_hword`/...) is abstracted: read
values come from the `busVal` oracle and every timed access is recorded in
an event log; `advance_clock`/`add_i_cycles` (scheduler glue not present in
the sources) are cycle counters.  The `mmio` field is the u16 register file
behind `Index<u32>` (`self[addr] = mmio[addr >> 1]`); the `BusEvt.start`
event is a ghost marker recording the point where `step_dma` begins a
channel's transfer (the `mem::replace` of `running`). -/

inductive DmaReason
  | CtrlWrite
  | HBlank
  | VBlank
  | Fifo
deriving DecidableEq

inductive BusEvt
  | start (idx : ℕ)
  | readW (addr : ℕ)
  | readH (addr : ℕ)
  | writeW (addr value : ℕ)
  | writeH (addr value : ℕ)
  | irq (idx : ℕ)
deriving DecidableEq

structure DmaGG where
  mmio : ℕ → ℕ
  src : ℕ → ℕ
  dst : ℕ → ℕ
  cache : ℕ
  running : ℕ
  queued : List (ℕ × DmaReason)
  cart : Cartridge
  busVal : ℕ → ℕ
  clock : ℕ
  iCycles : ℕ
  log : List BusEvt

def updAt (f : ℕ → ℕ) (i v : ℕ) : ℕ → ℕ := fun j => if j = i then v else f j

/-- `Index<u32> for GameGirlAdv`: `self[addr] = memory.mmio[(addr >> 1)]`. -/
def DmaGG.reg (g : DmaGG) (a : ℕ) : ℕ := g.mmio (a >>> 1)

/-- `IndexMut<u32>`: `self[addr] = value`. -/
def DmaGG.setReg (g : DmaGG) (a v : ℕ) : DmaGG :=
  { g with mmio := updAt g.mmio (a >>> 1) v }

/-- `VCOUNT = 0x6` per the spec's MMIO map (the gga::addr module is not part
of the sources). -/
def VCOUNT : ℕ := 0x6

/-- `SRC_MASK` (dma.rs line 16). -/
def SRC_MASK (i : ℕ) : ℕ := [0x7FFFFFF, 0xFFFFFFF, 0xFFFFFFF, 0xFFFFFFF].getD i 0

/-- `DST_MASK` (dma.rs line 17). -/
def DST_MASK (i : ℕ) : ℕ := [0x7FFFFFF, 0x7FFFFFF, 0x7FFFFFF, 0xFFFFFFF].getD i 0

/-- `Dmas::get_step`. -/
def Dmas.get_step (bits : ℕ) : ℤ := if bits = 0 then 2 else if bits = 1 then -2 else 0

/-- `Dmas::base_addr`. -/
def Dmas.base_addr (idx : ℕ) : ℕ := 0xB0 + idx * 0xC

/-- `u32::wrapping_add_signed`. -/
def addSigned (x : ℕ) (d : ℤ) : ℕ := (((x : ℤ) + d) % 2 ^ 32).toNat

/-- `Cpu::request_interrupt_idx` (cpu/mod.rs 132-135): sets the IF bit
(IF = 0x202 per the spec's MMIO map) and has the CPU check for servicing;
the servicing check is outside this fragment and recorded as an event. -/
def Cpu.request_interrupt_idx (g : DmaGG) (idx : ℕ) : DmaGG :=
  let g1 := g.setReg 0x202 (setBit16 (g.reg 0x202) idx true)
  { g1 with log := g1.log ++ [BusEvt.irq idx] }

/-- The copying loop of `Dmas::perform_transfer` for `src >= 0x200_0000`:
read at `src`, write at `dst`, step both registers with the (signed,
wrapping) strides, advance the clock; only the first access is `NonSeq`. -/
def Dmas.copy_loop (WORD : Bool) (idx : ℕ) (src_mod dst_mod : ℤ) :
    ℕ → Access → DmaGG → DmaGG
  | 0, _, g => g
  | n + 1, _, g =>
    let value := if WORD then g.busVal (g.src idx) else g.busVal (g.src idx) % 2 ^ 16
    let g := { g with log := g.log ++
      [if WORD then BusEvt.readW (g.src idx) else BusEvt.readH (g.src idx),
       if WORD then BusEvt.writeW (g.dst idx) value else BusEvt.writeH (g.dst idx) value] }
    let g := { g with src := updAt g.src idx (addSigned (g.src idx) src_mod),
                      dst := updAt g.dst idx (addSigned (g.dst idx) dst_mod),
                      clock := g.clock + 1 }
    Dmas.copy_loop WORD idx src_mod dst_mod n Access.Seq g

/-- The cache-writing loop of `Dmas::perform_transfer` for
`src < 0x200_0000`: write the cached value (upper half at `dst` bit 1 for
half-words), step the registers, advance the clock. -/
def Dmas.cache_loop (WORD : Bool) (idx : ℕ) (src_mod dst_mod : ℤ) :
    ℕ → Access → DmaGG → DmaGG
  | 0, _, g => g
  | n + 1, _, g =>
    let g :=
      if WORD then { g with log := g.log ++ [BusEvt.writeW (g.dst idx) g.cache] }
      else if isBit (g.dst idx) 1 = true then
        { g with log := g.log ++ [BusEvt.writeH (g.dst idx) ((g.cache >>> 16) % 2 ^ 16)] }
      else { g with log := g.log ++ [BusEvt.writeH (g.dst idx) (g.cache % 2 ^ 16)] }
    let g := { g with src := updAt g.src idx (addSigned (g.src idx) src_mod),
                      dst := updAt g.dst idx (addSigned (g.dst idx) dst_mod),
                      clock := g.clock + 1 }
    Dmas.cache_loop WORD idx src_mod dst_mod n Access.Seq g

/-- `Dmas::perform_transfer::<WORD>` (dma.rs 148-210): early return for
`dst < 0x200_0000`; otherwise align the registers and copy (caching the
last value), or replay the cache; finally two internal cycles. -/
def Dmas.perform_transfer (WORD : Bool) (g : DmaGG) (idx count : ℕ)
    (src_mod dst_mod : ℤ) : DmaGG :=
  if g.dst idx < 0x2000000 then g
  else
    let g :=
      if 0x2000000 ≤ g.src idx then
        let align : ℕ := if WORD then 0xFFFFFFFC else 0xFFFFFFFE
        let g := { g with src := updAt g.src idx (g.src idx &&& align),
                          dst := updAt g.dst idx (g.dst idx &&& align) }
        let g := Dmas.copy_loop WORD idx src_mod dst_mod count Access.NonSeq g
        if WORD then
          { g with cache := g.busVal (addSigned (g.src idx) (-src_mod)),
                   log := g.log ++ [BusEvt.readW (addSigned (g.src idx) (-src_mod))] }
        else
          let v := g.busVal (addSigned (g.src idx) (-src_mod)) % 2 ^ 16
          { g with cache := word v v,
                   log := g.log ++ [BusEvt.readH (addSigned (g.src idx) (-src_mod))] }
      else Dmas.cache_loop WORD idx src_mod dst_mod count Access.NonSeq g
    { g with iCycles := g.iCycles + 2 }

/-- `Dmas::step_dma` (dma.rs 73-146), fuel-indexed for the recursion into
the queued channel popped after the running transfer completes (`none` =
out of fuel; the real recursion depth is bounded by the queue length). -/
def Dmas.step_dma : ℕ → DmaGG → ℕ → ℕ → ℕ → DmaReason → Option DmaGG
  | 0, _, _, _, _, _ => none
  | fuel + 1, g, idx, base, ctrl, reason =>
    let fifo : Bool := decide (reason = DmaReason.Fifo)
    let vid_capture : Bool := decide (idx = 3)
      && decide (2 ≤ g.reg VCOUNT ∧ g.reg VCOUNT < 162)
      && decide (reason = DmaReason.HBlank) && decide (bitsOf ctrl 12 2 = 3)
    let isOn : Bool := isBit ctrl 15 &&
      (if bitsOf ctrl 12 2 = 0 then decide (reason = DmaReason.CtrlWrite)
       else if bitsOf ctrl 12 2 = 1 then decide (reason = DmaReason.VBlank)
       else if bitsOf ctrl 12 2 = 2 then
         decide (reason = DmaReason.HBlank) && decide (g.reg VCOUNT < 160)
       else fifo || vid_capture)
    if isOn = false then some g
    else if g.running ≤ idx then
      if g.queued.length < 3 then some { g with queued := g.queued ++ [(idx, reason)] }
      else none
    else
      let prev_dma := g.running
      let g := { g with running := idx, log := g.log ++ [BusEvt.start idx] }
      let count0 := g.reg (base + 8)
      let count := if fifo = true then 4
        else if count0 = 0 ∧ idx = 3 then 0x10000
        else if count0 = 0 then 0x4000
        else count0
      let src_mod := Dmas.get_step (bitsOf ctrl 7 2)
      let dst_raw := bitsOf ctrl 5 2
      let gd : DmaGG × ℤ :=
        if fifo = true then (g, 0)
        else if dst_raw = 3 then
          ({ g with
              dst := updAt g.dst idx
                  (word (g.reg (base + 4)) (g.reg (base + 6)) &&& DST_MASK idx) }, 2)
        else (g, Dmas.get_step dst_raw)
      let g := gd.1
      let dst_mod := gd.2
      let g :=
        if (fifo || isBit ctrl 10) = true then
          Dmas.perform_transfer true g idx count (src_mod * 2) (dst_mod * 2)
        else if idx = 3 then
          let g := match g.cart.save_type with
            | SaveType.Eeprom e =>
              { g with cart := { g.cart with
                  save_type := SaveType.Eeprom (e.dma3_started (g.dst 3) count) } }
            | _ => g
          Dmas.perform_transfer false g 3 count src_mod dst_mod
        else Dmas.perform_transfer false g idx count src_mod dst_mod
      let g :=
        if (!isBit ctrl 9 || decide (bitsOf ctrl 12 2 = 0)
            || (vid_capture && decide (g.reg VCOUNT = 161))) = true then
          g.setReg (base + 0xA) (setBit16 ctrl 15 false)
        else g
      let g := if isBit ctrl 14 = true then Cpu.request_interrupt_idx g (8 + idx) else g
      let g := { g with running := prev_dma }
      match g.queued.getLast? with
      | some pr =>
        let g := { g with queued := g.queued.dropLast }
        Dmas.step_dma fuel g pr.1 (Dmas.base_addr pr.1)
          (g.reg (Dmas.base_addr pr.1 + 0xA)) pr.2
      | none => some g
termination_by structural fuel _ _ _ _ _ => fuel

/-! ## Theorems: Flash and EEPROM state machines -/

/-- Bit-append: shifting left by `k` and or-ing in a value below `2 ^ k` is
multiply-and-add. -/
theorem shiftLeft_or_eq_add (a k b : ℕ) (h : b < 2 ^ k) :
    (a <<< k) ||| b = a * 2 ^ k + b := by
  apply Nat.eq_of_testBit_eq
  intro i
  rw [Nat.testBit_or, Nat.testBit_shiftLeft]
  rcases Nat.lt_or_ge i k with hik | hik
  · have hd : decide (k ≤ i) = false := decide_eq_false (by omega)
    rw [hd]
    simp only [Bool.false_and, Bool.false_or]
    have h1 : a * 2 ^ k + b = 2 ^ i * (a * 2 ^ (k - i)) + b := by
      have hp : 2 ^ i * 2 ^ (k - i) = 2 ^ k := by
        rw [← pow_add]
        congr 1
        omega
      calc a * 2 ^ k + b = a * (2 ^ i * 2 ^ (k - i)) + b := by rw [hp]
        _ = 2 ^ i * (a * 2 ^ (k - i)) + b := by ring
    rw [h1, Nat.testBit_to_div_mod, Nat.testBit_to_div_mod,
      Nat.mul_add_div (pow_pos (by norm_num : (0:ℕ) < 2) i)]
    have h2 : a * 2 ^ (k - i) = 2 * (a * 2 ^ (k - i - 1)) := by
      have hp : 2 ^ (k - i) = 2 * 2 ^ (k - i - 1) := by
        rw [← pow_succ']
        congr 1
        omega
      rw [hp]; ring
    rw [h2]
    have h3 : (2 * (a * 2 ^ (k - i - 1)) + b / 2 ^ i) % 2 = b / 2 ^ i % 2 := by omega
    rw [h3]
  · have hb : b.testBit i = false :=
      Nat.testBit_lt_two_pow (lt_of_lt_of_le h (Nat.pow_le_pow_right (by norm_num) hik))
    rw [decide_eq_true hik]
    simp only [Bool.true_and, hb, Bool.or_false]
    have h1 : (a * 2 ^ k + b) / 2 ^ i = a / 2 ^ (i - k) := by
      have hsplit : 2 ^ k * 2 ^ (i - k) = 2 ^ i := by
        rw [← pow_add]
        congr 1
        omega
      rw [← hsplit, ← Nat.div_div_eq_div_mul]
      have hq : (a * 2 ^ k + b) / 2 ^ k = a + b / 2 ^ k := by
        rw [mul_comm a (2 ^ k)]
        exact Nat.mul_add_div (pow_pos (by norm_num : (0:ℕ) < 2) k) a b
      rw [hq, Nat.div_eq_of_lt h, Nat.add_zero]
    rw [Nat.testBit_to_div_mod, Nat.testBit_to_div_mod, h1]

/-- Shifting one bit into a u128 register:
`(b <<< 1) ||| (v &&& 1)` is `2 * b + v % 2`. -/
theorem shiftLeft_one_or_bit (b v : ℕ) : (b <<< 1) ||| (v &&& 1) = 2 * b + v % 2 := by
  rw [Nat.and_one_is_mod, shiftLeft_or_eq_add b 1 (v % 2) (by omega)]
  ring_nf

/-- C4: Flash command state machine.  Writing 0xAA to 0x5555 with no stage
pending sets stage `FirstWritten`; 0x55 to 0x2AAA with stage `FirstWritten`
sets `SecondWritten`; a command byte 0x80 / 0x10 / 0xA0 / 0xB0 (banked chips
only) / 0x90 / 0xF0 written to 0x5555 with stage `SecondWritten` enters Erase
mode, erases the chip when already in Erase mode, enters Write mode, enters
BankSelect mode, enters Id mode, or exits Id mode, always resetting the stage
to `none`; and in Id mode byte reads return the device id indexed by
`addr &&& 1` (0xC2/0x1C for Flash64, 0xC2/0x09 for Flash128).  All of this
holds only for states whose mode is not `Write` (see the counterexample). -/
theorem flash_command_machine (st : FlashState) (ram : Ram) (bank : Option ℕ)
    (hmode : st.mode ≠ FlashMode.Write) :
    (st.command_stage = none →
      FlashState.write st 0x5555 0xAA ram bank =
        ({ st with command_stage := some FlashCmdStage.FirstWritten }, ram, bank))
    ∧ (st.command_stage = some FlashCmdStage.FirstWritten →
      FlashState.write st 0x2AAA 0x55 ram bank =
        ({ st with command_stage := some FlashCmdStage.SecondWritten }, ram, bank))
    ∧ (st.command_stage = some FlashCmdStage.SecondWritten →
      (FlashState.write st 0x5555 0x80 ram bank =
        ({ command_stage := none, mode := FlashMode.Erase }, ram, bank))
      ∧ (FlashState.write st 0x5555 0x10 ram bank =
        ({ command_stage := none, mode := FlashMode.Regular },
         (if st.mode = FlashMode.Erase then ram.fill 0xFF else ram), bank))
      ∧ (FlashState.write st 0x5555 0xA0 ram bank =
        ({ command_stage := none, mode := FlashMode.Write }, ram, bank))
      ∧ (bank.isSome →
        FlashState.write st 0x5555 0xB0 ram bank =
          ({ command_stage := none, mode := FlashMode.BankSelect }, ram, bank))
      ∧ (FlashState.write st 0x5555 0x90 ram bank =
        ({ command_stage := none, mode := FlashMode.Id }, ram, bank))
      ∧ (FlashState.write st 0x5555 0xF0 ram bank =
        ({ command_stage := none, mode := FlashMode.Regular }, ram, bank)))
    ∧ (∀ (st2 : FlashState) (rom ram2 : Ram) (bank2 addr : ℕ),
        st2.mode = FlashMode.Id →
        Cartridge.read_ram_byte ⟨rom, ram2, SaveType.Flash64 st2⟩ addr =
          (if addr &&& 1 = 0 then 0xC2 else 0x1C)
        ∧ Cartridge.read_ram_byte ⟨rom, ram2, SaveType.Flash128 st2 bank2⟩ addr =
          (if addr &&& 1 = 0 then 0xC2 else 0x09)) := by
  refine ⟨fun h1 => ?_, fun h1 => ?_, fun h1 => ?_, fun st2 rom ram2 bank2 addr hid => ?_⟩
  · simp [FlashState.write, hmode, h1]
  · simp [FlashState.write, hmode, h1]
  · refine ⟨?_, ?_, ?_, fun hb => ?_, ?_, ?_⟩
    · simp [FlashState.write, hmode, h1]
    · simp [FlashState.write, hmode, h1]
    · simp [FlashState.write, hmode, h1]
    · simp [FlashState.write, hmode, h1, hb]
    · simp [FlashState.write, hmode, h1]
    · simp [FlashState.write, hmode, h1]
  · exact ⟨by simp [Cartridge.read_ram_byte, hid], by simp [Cartridge.read_ram_byte, hid]⟩

/-- C4 witness: the state-machine theorem applied to a concrete Regular-mode
state with a pending `SecondWritten` stage on a banked chip. -/
theorem flash_command_machine_witness :
    ((⟨some FlashCmdStage.SecondWritten, FlashMode.Regular⟩ : FlashState).mode
       ≠ FlashMode.Write)
    ∧ (FlashState.write ⟨some FlashCmdStage.SecondWritten, FlashMode.Regular⟩ 0x5555 0x90
        ⟨0x20000, fun _ => 0⟩ (some 0) =
        ({ command_stage := none, mode := FlashMode.Id }, ⟨0x20000, fun _ => 0⟩, some 0)) := by
  refine ⟨by decide, ?_⟩
  exact ((flash_command_machine ⟨some FlashCmdStage.SecondWritten, FlashMode.Regular⟩
    ⟨0x20000, fun _ => 0⟩ (some 0) (by decide)).2.2.1 rfl).2.2.2.2.1

/-- C4 counterexample: in `Write` mode with no stage pending, writing 0xAA to
0x5555 is consumed as the pending data-byte write and does not set the command
stage to `FirstWritten` as the claim (quantified over every `FlashState`)
requires. -/
theorem flash_command_machine_cex :
    (FlashState.write ⟨none, FlashMode.Write⟩ 0x5555 0xAA ⟨0x10000, fun _ => 0⟩ none).1.command_stage
      ≠ some FlashCmdStage.FirstWritten := by
  decide

/-- C5: Flash sector erase.  With the unlock sequence complete
(stage `SecondWritten`) and mode `Erase`, writing 0x30 to `a` sets exactly
the 0x1000 bytes starting at the sector base (`a &&& 0xF000`, offset by
0x10000 when the active bank is 1) to 0xFF, leaves every other byte
unchanged, and returns to mode `Regular` with stage `none`. -/
theorem flash_erase_sector (st : FlashState) (a : ℕ) (ram : Ram) (bank : Option ℕ)
    (sector : ℕ)
    (hsec : sector = (if bank = some 1 then (a &&& 0xF000) ||| 0x10000 else a &&& 0xF000))
    (hst : st.command_stage = some FlashCmdStage.SecondWritten)
    (hm : st.mode = FlashMode.Erase)
    (hlen : sector + 0x1000 ≤ ram.len) :
    FlashState.write st a 0x30 ram bank =
      ({ command_stage := none, mode := FlashMode.Regular },
       ram.setRange sector 0x1000 0xFF, bank)
    ∧ (∀ p, sector ≤ p → p < sector + 0x1000 →
        (ram.setRange sector 0x1000 0xFF).data p = 0xFF)
    ∧ (∀ p, p < sector ∨ sector + 0x1000 ≤ p →
        (ram.setRange sector 0x1000 0xFF).data p = ram.data p) := by
  refine ⟨?_, fun p h1 h2 => ?_, fun p h => ?_⟩
  · have hw : st.mode ≠ FlashMode.Write := by rw [hm]; decide
    have hbs : st.mode ≠ FlashMode.BankSelect := by rw [hm]; decide
    simp [FlashState.write, hw, hbs, hst, hm, hsec]
  · have : min (sector + 0x1000) ram.len = sector + 0x1000 := by omega
    simp [Ram.setRange, this, h1, h2]
  · have hcond : ¬(sector ≤ p ∧ p < min (sector + 0x1000) ram.len) := by omega
    simp only [Ram.setRange]
    rw [if_neg hcond]

/-- C5 witness: erasing the sector of address 0x1234 on an unbanked 64K chip. -/
theorem flash_erase_sector_witness :
    (0x1000 : ℕ) = (if (none : Option ℕ) = some 1
        then ((0x1234 : ℕ) &&& 0xF000) ||| 0x10000 else (0x1234 : ℕ) &&& 0xF000)
    ∧ ((0x1000 : ℕ) + 0x1000 ≤ (0x10000 : ℕ))
    ∧ (FlashState.write ⟨some FlashCmdStage.SecondWritten, FlashMode.Erase⟩ 0x1234 0x30
        ⟨0x10000, fun _ => 0⟩ none =
        ({ command_stage := none, mode := FlashMode.Regular },
         Ram.setRange ⟨0x10000, fun _ => 0⟩ 0x1000 0x1000 0xFF, none)
      ∧ (∀ p, 0x1000 ≤ p → p < 0x1000 + 0x1000 →
          (Ram.setRange ⟨0x10000, fun _ => 0⟩ 0x1000 0x1000 0xFF).data p = 0xFF)
      ∧ (∀ p, p < 0x1000 ∨ 0x1000 + 0x1000 ≤ p →
          (Ram.setRange ⟨0x10000, fun _ => 0⟩ 0x1000 0x1000 0xFF).data p
            = (⟨0x10000, fun _ => 0⟩ : Ram).data p)) :=
  ⟨by decide, by decide,
   flash_erase_sector ⟨some FlashCmdStage.SecondWritten, FlashMode.Erase⟩ 0x1234
     ⟨0x10000, fun _ => 0⟩ none 0x1000 (by decide) rfl rfl (by decide)⟩

/-- C6: EEPROM size auto-detection from the DMA3 transfer count.  While the
size is `Unknown` and the destination lies in `0x0D000000..=0x0DFFFFFF`,
counts 9/73 set the 512-byte (6 address bits) size, counts 17/81 the 8 KiB
(14 address bits) size, any other count leaves it `Unknown`; a known size is
never changed. -/
theorem eeprom_size_autodetection (e : Eeprom) (dst cnt : ℕ) :
    (e.size = EepromSize.Unknown → 0xD000000 ≤ dst → dst ≤ 0xDFFFFFF →
      ((cnt = 9 ∨ cnt = 73 → (e.dma3_started dst cnt).size = EepromSize.E512)
      ∧ (cnt = 17 ∨ cnt = 81 → (e.dma3_started dst cnt).size = EepromSize.E8k)
      ∧ (¬(cnt = 9 ∨ cnt = 73) → ¬(cnt = 17 ∨ cnt = 81) →
          (e.dma3_started dst cnt).size = EepromSize.Unknown)))
    ∧ (e.size ≠ EepromSize.Unknown → (e.dma3_started dst cnt).size = e.size) := by
  constructor
  · intro h1 h2 h3
    refine ⟨fun hc => ?_, fun hc => ?_, fun hc1 hc2 => ?_⟩
    · rcases hc with h | h <;> subst h <;>
        simp [Eeprom.dma3_started, Eeprom.reset_rx, h1, h2, h3]
    · rcases hc with h | h <;> subst h <;>
        simp [Eeprom.dma3_started, Eeprom.reset_rx, h1, h2, h3]
    · simp [Eeprom.dma3_started, Eeprom.reset_rx, h1, h2, h3, hc1, hc2]
  · intro h
    simp [Eeprom.dma3_started, Eeprom.reset_rx, h]

/-- C6 witness: a 73-unit DMA3 transfer into the EEPROM window detects the
512-byte size; a state with a known size is unchanged. -/
theorem eeprom_size_autodetection_witness :
    ((⟨EepromSize.Unknown, EepromCmd.Nothing, 0, 0, 0, 0⟩ : Eeprom).size = EepromSize.Unknown)
    ∧ (Eeprom.dma3_started ⟨EepromSize.Unknown, EepromCmd.Nothing, 0, 0, 0, 0⟩ 0xD000000 73).size
        = EepromSize.E512 :=
  ⟨rfl, ((eeprom_size_autodetection ⟨EepromSize.Unknown, EepromCmd.Nothing, 0, 0, 0, 0⟩
      0xD000000 73).1 rfl (by decide) (by decide)).1 (Or.inr rfl)⟩

/-- Multiply-add under a fixed modulus absorbs an inner reduction. -/
theorem mod_mul_add_mod_eq (M a c d : ℕ) : (a % M * c + d) % M = (a * c + d) % M := by
  have h : a * c + d = a % M * c + d + a / M * c * M := by
    conv_lhs => rw [← Nat.div_add_mod a M]
    ring
  rw [h, Nat.add_mul_mod_self_right]

/-- An `Eeprom::write` step that neither completes the 2-bit command nor
reaches the end of the stream just shifts the bit in. -/
theorem eeprom_write_step (e : Eeprom) (value : ℕ) (ram : Ram)
    (h2 : e.recvCount + 1 ≠ 2)
    (h3 : e.recvCount + 1 ≠ 2 + e.size.val + e.command.val) :
    e.write value ram =
      ({ e with recvBuffer := (2 * e.recvBuffer + value % 2) % 2 ^ 128,
                recvCount := e.recvCount + 1 }, ram) := by
  simp only [Eeprom.write, Eeprom.cmd_size, shiftLeft_one_or_bit]
  rw [if_neg h2, if_neg h3]

/-- The step that makes the receive count reach 2 latches a Write command
when the two shifted-in bits are `10`. -/
theorem eeprom_write_latch_write (e : Eeprom) (value : ℕ) (ram : Ram)
    (h : e.recvCount = 1)
    (hb : (2 * e.recvBuffer + value % 2) % 2 ^ 128 &&& 3 = 2) :
    e.write value ram =
      ({ e with recvBuffer := (2 * e.recvBuffer + value % 2) % 2 ^ 128, recvCount := 2,
                command := EepromCmd.Write }, ram) := by
  simp only [Eeprom.write, Eeprom.cmd_size, shiftLeft_one_or_bit, h]
  rw [if_pos (by norm_num), hb]

/-- The step that makes the receive count reach 2 latches a Read command
when the two shifted-in bits are `11`. -/
theorem eeprom_write_latch_read (e : Eeprom) (value : ℕ) (ram : Ram)
    (h : e.recvCount = 1)
    (hb : (2 * e.recvBuffer + value % 2) % 2 ^ 128 &&& 3 = 3) :
    e.write value ram =
      ({ e with recvBuffer := (2 * e.recvBuffer + value % 2) % 2 ^ 128, recvCount := 2,
                command := EepromCmd.Read }, ram) := by
  simp only [Eeprom.write, Eeprom.cmd_size, shiftLeft_one_or_bit, h]
  rw [if_pos (by norm_num), hb]

/-- Feeding `m + 1` bits is feeding the top `m` bits and then the last one. -/
theorem feedBits_peel_last (m x : ℕ) (er : Eeprom × Ram) :
    feedBits (m + 1) x er =
      Eeprom.write (feedBits m (x >>> 1) er).1 x (feedBits m (x >>> 1) er).2 := by
  induction m generalizing er with
  | zero => simp [feedBits]
  | succ m ih =>
    have hs : x >>> 1 >>> m = x >>> (m + 1) := by
      rw [← Nat.shiftRight_add]
      congr 1
      omega
    calc feedBits (m + 1 + 1) x er
        = feedBits (m + 1) x (Eeprom.write er.1 (x >>> (m + 1)) er.2) := rfl
      _ = _ := by
          rw [ih]
          have hr : feedBits (m + 1) (x >>> 1) er
              = feedBits m (x >>> 1) (Eeprom.write er.1 (x >>> 1 >>> m) er.2) := rfl
          rw [hr, hs]

/-- While the receive count stays strictly between 2 and the command size,
feeding bits just accumulates them into the receive buffer. -/
theorem feedBits_accumulate (m : ℕ) :
    ∀ (e : Eeprom) (ram : Ram) (x k : ℕ),
      e.recvCount = k → 2 ≤ k → k + m < e.cmd_size e.command →
      e.recvBuffer < 2 ^ 128 →
      feedBits m x (e, ram) =
        ({ e with recvBuffer := (e.recvBuffer * 2 ^ m + x % 2 ^ m) % 2 ^ 128,
                  recvCount := k + m }, ram) := by
  induction m with
  | zero =>
    intro e ram x k hrc hk hm hb
    subst hrc
    simp only [feedBits, pow_zero, Nat.mul_one, Nat.mod_one, Nat.add_zero]
    rw [Nat.mod_eq_of_lt hb]
  | succ m ih =>
    intro e ram x k hrc hk hm hb
    subst hrc
    simp only [Eeprom.cmd_size] at hm
    have hstep : feedBits (m + 1) x (e, ram)
        = feedBits m x (Eeprom.write e (x >>> m) ram) := rfl
    rw [hstep, eeprom_write_step e (x >>> m) ram (by omega) (by omega)]
    rw [ih _ ram x (e.recvCount + 1) rfl (by omega)
      (by simp only [Eeprom.cmd_size]; omega)
      (Nat.mod_lt _ (by norm_num))]
    rw [Prod.mk.injEq]
    refine ⟨?_, rfl⟩
    have hcount : e.recvCount + 1 + m = e.recvCount + (m + 1) := by omega
    rw [hcount]
    congr 1
    rw [mod_mul_add_mod_eq]
    have hx : x % 2 ^ (m + 1) = x % 2 ^ m + 2 ^ m * (x / 2 ^ m % 2) := by
      rw [pow_succ]
      exact Nat.mod_mul
    rw [hx, Nat.shiftRight_eq_div_pow]
    congr 1
    ring

/-- `n` successive `Eeprom::read`s with at least `n` bits pending shift out
successive bits of the send buffer, most significant position first. -/
theorem readN_spec (n : ℕ) :
    ∀ e : Eeprom, n ≤ e.sendCount →
      readN n e =
        ((List.range n).map
          (fun j => ((e.sendBuffer >>> (e.sendCount - 1 - j)) % 2 ^ 16) &&& 1),
         { e with sendCount := e.sendCount - n }) := by
  induction n with
  | zero =>
    intro e _
    simp [readN]
  | succ n ih =>
    intro e h
    have hne : ¬(e.sendCount = 0) := by omega
    simp only [readN, Eeprom.read]
    rw [if_neg hne]
    rw [ih { e with sendCount := e.sendCount - 1 } (by simp; omega)]
    simp only [List.range_succ_eq_map, List.map_cons, List.map_map]
    refine congrArg₂ Prod.mk (congrArg₂ List.cons ?_ ?_) ?_
    · simp
    · refine List.map_congr_left fun j _ => ?_
      simp only [Function.comp]
      have hidx : e.sendCount - 1 - 1 - j = e.sendCount - 1 - Nat.succ j := by omega
      rw [hidx]
    · congr 1
      omega

/-- A bit read out of the send register, in div/mod form. -/
theorem read_bit_eq (S c : ℕ) : ((S >>> c) % 2 ^ 16) &&& 1 = S / 2 ^ c % 2 := by
  rw [Nat.and_one_is_mod, Nat.shiftRight_eq_div_pow,
    Nat.mod_mod_of_dvd _ (by norm_num : (2:ℕ) ∣ 2 ^ 16)]

/-- A div/mod bit equals the test of that bit. -/
theorem div_pow_mod_two_eq (S c : ℕ) : S / 2 ^ c % 2 = (S.testBit c).toNat := by
  rw [Nat.testBit_to_div_mod]
  rcases Nat.mod_two_eq_zero_or_one (S / 2 ^ c) with h | h <;> simp [h]

/-- The EEPROM tx-load loop with no iterations left. -/
theorem loadBE64_zero (r : Ram) (pos acc : ℕ) : r.loadBE64 pos 0 acc = acc := rfl

/-- One step of the EEPROM tx-load loop. -/
theorem loadBE64_succ (r : Ram) (pos c acc : ℕ) :
    r.loadBE64 pos (c + 1) acc =
      if pos < r.len then
        r.loadBE64 (pos + 1) c (((acc <<< 8) ||| (r.data pos % 256)) % 2 ^ 128)
      else acc := rfl

/-- The bytes written by `Ram.storeBE64`, and its frame. -/
theorem storeBE64_data (r : Ram) (idx v : ℕ) (hlen : idx + 8 ≤ r.len) :
    (∀ i, i < 8 → (r.storeBE64 idx v).data (idx + i) = (v >>> (8 * (7 - i))) % 256)
    ∧ (∀ p, p < idx ∨ idx + 8 ≤ p → (r.storeBE64 idx v).data p = r.data p) := by
  have hhi : min (idx + 8) r.len = idx + 8 := by omega
  constructor
  · intro i hi
    simp only [Ram.storeBE64, hhi]
    rw [if_pos ⟨by omega, by omega⟩]
    congr 2
    omega
  · intro p hp
    simp only [Ram.storeBE64, hhi]
    rw [if_neg (by omega)]

set_option maxRecDepth 8000 in
set_option maxHeartbeats 2000000 in
/-- Loading eight stored big-endian bytes shifts the 64-bit value into the
bottom of the accumulator. -/
theorem loadBE64_of_bytes (r : Ram) (idx v s0 : ℕ) (hlen : idx + 8 ≤ r.len)
    (hv : v < 2 ^ 64)
    (hbytes : ∀ i, i < 8 → r.data (idx + i) = (v >>> (8 * (7 - i))) % 256) :
    r.loadBE64 idx 8 s0 = (s0 * 2 ^ 64 + v) % 2 ^ 128 := by
  have hlor : ∀ a b : ℕ, (a <<< 8) ||| (b % 256) = a * 256 + b % 256 := fun a b => by
    have h := shiftLeft_or_eq_add a 8 (b % 256) (by omega)
    simpa using h
  have hb : ∀ i, i < 8 → r.data (idx + i) = v / 2 ^ (8 * (7 - i)) % 256 := by
    intro i hi
    rw [hbytes i hi, Nat.shiftRight_eq_div_pow]
  have h0 := hb 0 (by omega)
  have h1 := hb 1 (by omega)
  have h2 := hb 2 (by omega)
  have h3 := hb 3 (by omega)
  have h4 := hb 4 (by omega)
  have h5 := hb 5 (by omega)
  have h6 := hb 6 (by omega)
  have h7 := hb 7 (by omega)
  rw [show idx + 0 = idx from rfl] at h0
  norm_num at h0 h1 h2 h3 h4 h5 h6 h7
  rw [loadBE64_succ, if_pos (by omega), loadBE64_succ, if_pos (by omega),
    loadBE64_succ, if_pos (by omega), loadBE64_succ, if_pos (by omega),
    loadBE64_succ, if_pos (by omega), loadBE64_succ, if_pos (by omega),
    loadBE64_succ, if_pos (by omega), loadBE64_succ, if_pos (by omega),
    loadBE64_zero]
  simp only [hlor, mod_mul_add_mod_eq]
  rw [show idx + 1 + 1 = idx + 2 from rfl, show idx + 2 + 1 = idx + 3 from rfl,
    show idx + 3 + 1 = idx + 4 from rfl, show idx + 4 + 1 = idx + 5 from rfl,
    show idx + 5 + 1 = idx + 6 from rfl, show idx + 6 + 1 = idx + 7 from rfl]
  rw [h0, h1, h2, h3, h4, h5, h6, h7]
  congr 1
  omega

/-- Reading `n ≤ 128` bits out of an all-ones send buffer yields only 1s. -/
theorem readN_ones (n : ℕ) (e : Eeprom) (hn : n ≤ e.sendCount) (hm : e.sendCount ≤ 128)
    (hS : e.sendBuffer = 2 ^ 128 - 1) :
    readN n e = (List.replicate n 1, { e with sendCount := e.sendCount - n }) := by
  rw [readN_spec n e hn]
  refine congrArg₂ Prod.mk ?_ rfl
  rw [List.eq_replicate_iff]
  refine ⟨by simp, ?_⟩
  intro b hb
  obtain ⟨j, hj, hval⟩ := List.mem_map.1 hb
  rw [List.mem_range] at hj
  rw [read_bit_eq, div_pow_mod_two_eq, hS] at hval
  rw [← hval, Nat.testBit_two_pow_sub_one]
  have : e.sendCount - 1 - j < 128 := by omega
  simp [this]

/-- `x &&& 0x3FF` is `x % 1024`. -/
theorem and_1023_eq_mod (x : ℕ) : x &&& 1023 = x % 1024 := by
  have h := Nat.and_pow_two_sub_one_eq_mod x 10
  norm_num at h
  exact h

/-- The final bit of a Write command stream: with the command bits, address
and data accumulated in the receive buffer, the trailing zero bit triggers
the store and arms a 128-bit all-ones completion stream. -/
theorem eeprom_write_trigger_write (sz : EepromSize) (A v sb sc val : ℕ) (ram : Ram)
    (hs : sz.val = 6 ∨ sz.val = 14) (hA : A < 2 ^ sz.val) (hv : v < 2 ^ 64)
    (hval : val % 2 = 0) :
    Eeprom.write
        ⟨sz, EepromCmd.Write, (2 * 2 ^ sz.val + A) * 2 ^ 64 + v, 66 + sz.val, sb, sc⟩ val ram
      = (⟨sz, EepromCmd.Write, 0, 0, 2 ^ 128 - 1, 128⟩,
         ram.storeBE64 ((A % 1024) * 8) v) := by
  simp only [Eeprom.write, Eeprom.cmd_size, EepromCmd.val, Eeprom.reset_rx, bitsOf,
    Nat.shiftRight_zero]
  rw [if_neg (by omega), if_pos (by omega)]
  simp only [Nat.and_one_is_mod, hval, Nat.or_zero, Nat.shiftLeft_eq, one_mul,
    Nat.and_pow_two_sub_one_eq_mod, and_1023_eq_mod, Nat.shiftRight_eq_div_pow]
  refine congrArg₂ Prod.mk rfl ?_
  congr 1
  · congr 1
    rcases hs with h | h <;> rw [h] at hA ⊢ <;> norm_num at hA ⊢ <;> omega
  · rcases hs with h | h <;> rw [h] at hA ⊢ <;> norm_num at hA ⊢ <;> omega

/-- The final bit of a Read command stream: the trailing zero bit triggers
loading the addressed 8 bytes into the send buffer behind a 4-bit dummy
prefix (68 pending bits). -/
theorem eeprom_write_trigger_read (sz : EepromSize) (A sb sc val : ℕ) (ram : Ram)
    (hs : sz.val = 6 ∨ sz.val = 14) (hA : A < 2 ^ sz.val) (hval : val % 2 = 0) :
    Eeprom.write ⟨sz, EepromCmd.Read, 3 * 2 ^ sz.val + A, 2 + sz.val, sb, sc⟩ val ram
      = (⟨sz, EepromCmd.Read, 0, 0, ram.loadBE64 ((A % 1024) * 8) 8 sb, 68⟩, ram) := by
  simp only [Eeprom.write, Eeprom.cmd_size, EepromCmd.val, Eeprom.reset_rx, bitsOf,
    Nat.shiftRight_zero]
  rw [if_neg (by omega), if_pos trivial]
  simp only [Nat.and_one_is_mod, hval, Nat.or_zero, Nat.shiftLeft_eq, one_mul,
    Nat.and_pow_two_sub_one_eq_mod, and_1023_eq_mod, Nat.shiftRight_eq_div_pow]
  refine congrArg₂ Prod.mk ?_ rfl
  congr 2
  rcases hs with h | h <;> rw [h] at hA ⊢ <;> norm_num at hA ⊢ <;> omega

/-- The 68 pending read bits after a Read command: 4 dummy one-bits from the
old all-ones buffer, then the 64 data bits, most significant first. -/
theorem readN_68_data (sz : EepromSize) (v : ℕ) (hv : v < 2 ^ 64) :
    readN 68 ⟨sz, EepromCmd.Read, 0, 0, ((2 ^ 128 - 1) * 2 ^ 64 + v) % 2 ^ 128, 68⟩
      = (List.replicate 4 1 ++ (List.range 64).map (fun i => (v >>> (63 - i)) &&& 1),
         ⟨sz, EepromCmd.Read, 0, 0, ((2 ^ 128 - 1) * 2 ^ 64 + v) % 2 ^ 128, 0⟩) := by
  have hS : ((2 ^ 128 - 1) * 2 ^ 64 + v) % 2 ^ 128 = ((2 ^ 64 - 1) <<< 64) ||| v := by
    rw [shiftLeft_or_eq_add _ _ _ hv]
    omega
  rw [readN_spec 68 _ (by norm_num)]
  refine congrArg₂ Prod.mk ?_ rfl
  have hone : ∀ j, j < 4 →
      (((((2 ^ 128 - 1) * 2 ^ 64 + v) % 2 ^ 128) >>> (68 - 1 - j)) % 2 ^ 16) &&& 1 = 1 := by
    intro j hj
    rw [read_bit_eq, div_pow_mod_two_eq, hS, Nat.testBit_or, Nat.testBit_shiftLeft,
      Nat.testBit_two_pow_sub_one]
    have hvb : v.testBit (68 - 1 - j) = false :=
      Nat.testBit_lt_two_pow
        (lt_of_lt_of_le hv (Nat.pow_le_pow_right (by norm_num) (by omega)))
    rw [hvb]
    have h1 : decide (64 ≤ 68 - 1 - j) = true := decide_eq_true (by omega)
    have h2 : decide (68 - 1 - j - 64 < 64) = true := decide_eq_true (by omega)
    rw [h1, h2]
    rfl
  rw [show (68 : ℕ) = 4 + 64 from rfl, List.range_add, List.map_append, List.map_map]
  refine congrArg₂ List.append ?_ ?_
  · rw [show List.range 4 = [0, 1, 2, 3] from rfl]
    simp only [List.map_cons, List.map_nil]
    rw [hone 0 (by norm_num), hone 1 (by norm_num), hone 2 (by norm_num),
      hone 3 (by norm_num)]
    rfl
  · refine List.map_congr_left fun j hj => ?_
    rw [List.mem_range] at hj
    simp only [Function.comp]
    rw [read_bit_eq, div_pow_mod_two_eq, hS, Nat.testBit_or, Nat.testBit_shiftLeft]
    have hc : 68 - 1 - (4 + j) = 63 - j := by omega
    rw [hc]
    have hd : decide (64 ≤ 63 - j) = false := decide_eq_false (by omega)
    rw [hd]
    simp only [Bool.false_and, Bool.false_or]
    rw [Nat.and_one_is_mod, Nat.shiftRight_eq_div_pow, div_pow_mod_two_eq]


set_option maxRecDepth 16000 in
set_option maxHeartbeats 2000000 in
/-- C1: EEPROM write-then-read round trip.  For a detected size (6- or
14-bit addressing), a reset receive state, an address `A` below the
addressable limit and a 64-bit value `v`: clocking in the Write stream
(`10`, the `size` address bits of `A`, the 64 bits of `v` MSB-first, and a
trailing 0 — encoded as the bits of `((2*2^size + A)*2^64 + v)*2`) stores
`v` big-endian into the 8 RAM bytes at `(A &&& 0x3FF) * 8` and leaves a
128-bit all-ones stream, so the next 128 hword reads return 1; then
clocking in the Read stream (`11`, the address bits of `A`, a trailing 0 —
the bits of `(3*2^size + A)*2`) makes the next 68 hword reads yield 4 dummy
bits followed by the 64 bits of `v` MSB-first, and a read once no bits
remain returns 1. -/
theorem eeprom_write_then_read_roundtrip
    (sz : EepromSize) (hsz : sz = EepromSize.E512 ∨ sz = EepromSize.E8k)
    (c0 : EepromCmd) (sb0 sc0 : ℕ) (ram : Ram) (A v : ℕ)
    (hA : A < 2 ^ sz.val) (hv : v < 2 ^ 64)
    (hlen : (A &&& 0x3FF) * 8 + 8 ≤ ram.len) :
    feedBits (67 + sz.val) (((2 * 2 ^ sz.val + A) * 2 ^ 64 + v) * 2)
        (⟨sz, c0, 0, 0, sb0, sc0⟩, ram)
      = (⟨sz, EepromCmd.Write, 0, 0, 2 ^ 128 - 1, 128⟩,
         ram.storeBE64 ((A &&& 0x3FF) * 8) v)
    ∧ (∀ i, i < 8 →
        (ram.storeBE64 ((A &&& 0x3FF) * 8) v).data ((A &&& 0x3FF) * 8 + i)
          = (v >>> (8 * (7 - i))) % 256)
    ∧ readN 128 ⟨sz, EepromCmd.Write, 0, 0, 2 ^ 128 - 1, 128⟩
        = (List.replicate 128 1, ⟨sz, EepromCmd.Write, 0, 0, 2 ^ 128 - 1, 0⟩)
    ∧ feedBits (3 + sz.val) ((3 * 2 ^ sz.val + A) * 2)
        (⟨sz, EepromCmd.Write, 0, 0, 2 ^ 128 - 1, 0⟩, ram.storeBE64 ((A &&& 0x3FF) * 8) v)
      = (⟨sz, EepromCmd.Read, 0, 0, ((2 ^ 128 - 1) * 2 ^ 64 + v) % 2 ^ 128, 68⟩,
         ram.storeBE64 ((A &&& 0x3FF) * 8) v)
    ∧ readN 68 ⟨sz, EepromCmd.Read, 0, 0, ((2 ^ 128 - 1) * 2 ^ 64 + v) % 2 ^ 128, 68⟩
        = (List.replicate 4 1 ++ (List.range 64).map (fun i => (v >>> (63 - i)) &&& 1),
           ⟨sz, EepromCmd.Read, 0, 0, ((2 ^ 128 - 1) * 2 ^ 64 + v) % 2 ^ 128, 0⟩)
    ∧ (Eeprom.read ⟨sz, EepromCmd.Read, 0, 0,
        ((2 ^ 128 - 1) * 2 ^ 64 + v) % 2 ^ 128, 0⟩).1 = 1 := by
  have hsval : sz.val = 6 ∨ sz.val = 14 := by
    rcases hsz with rfl | rfl
    · exact Or.inl rfl
    · exact Or.inr rfl
  rw [and_1023_eq_mod] at hlen ⊢
  have hlen2 : A % 1024 * 8 + 8 ≤ (ram.storeBE64 (A % 1024 * 8) v).len := by
    simpa [Ram.storeBE64] using hlen
  have hbytes := (storeBE64_data ram (A % 1024 * 8) v hlen).1
  refine ⟨?_, hbytes, ?_, ?_, readN_68_data sz v hv, rfl⟩
  · -- the Write command stream
    have hfeed : feedBits (66 + sz.val) ((2 * 2 ^ sz.val + A) * 2 ^ 64 + v)
        (⟨sz, c0, 0, 0, sb0, sc0⟩, ram)
        = (⟨sz, EepromCmd.Write, (2 * 2 ^ sz.val + A) * 2 ^ 64 + v, 66 + sz.val, sb0, sc0⟩,
           ram) := by
      rw [show 66 + sz.val = (65 + sz.val) + 1 from by omega]
      simp only [feedBits]
      have hb1 : ((2 * 2 ^ sz.val + A) * 2 ^ 64 + v) >>> (65 + sz.val) = 1 := by
        rw [Nat.shiftRight_eq_div_pow]
        rcases hsval with h | h <;> rw [h] at hA ⊢ <;> norm_num at hA ⊢ <;> omega
      rw [hb1, eeprom_write_step _ 1 ram (by norm_num)
        (by show (0:ℕ) + 1 ≠ 2 + sz.val + c0.val; omega)]
      rw [show (65 + sz.val) = (64 + sz.val) + 1 from by omega]
      simp only [feedBits]
      have hb2 : ((2 * 2 ^ sz.val + A) * 2 ^ 64 + v) >>> (64 + sz.val) = 2 := by
        rw [Nat.shiftRight_eq_div_pow]
        rcases hsval with h | h <;> rw [h] at hA ⊢ <;> norm_num at hA ⊢ <;> omega
      rw [hb2, eeprom_write_latch_write _ 2 ram rfl
        (by show (2 * ((2 * 0 + 1 % 2) % 2 ^ 128) + 2 % 2) % 2 ^ 128 &&& 3 = 2; decide)]
      show feedBits (64 + sz.val) ((2 * 2 ^ sz.val + A) * 2 ^ 64 + v)
          (⟨sz, EepromCmd.Write, 2, 2, sb0, sc0⟩, ram) = _
      rw [feedBits_accumulate (64 + sz.val) ⟨sz, EepromCmd.Write, 2, 2, sb0, sc0⟩ ram
        ((2 * 2 ^ sz.val + A) * 2 ^ 64 + v) 2 rfl (le_refl 2)
        (by show (2:ℕ) + (64 + sz.val) < 2 + sz.val + 65; omega)
        (by show (2:ℕ) < 2 ^ 128; norm_num)]
      refine congrArg₂ Prod.mk ?_ rfl
      congr 1
      · show ((2:ℕ) * 2 ^ (64 + sz.val)
            + ((2 * 2 ^ sz.val + A) * 2 ^ 64 + v) % 2 ^ (64 + sz.val)) % 2 ^ 128
          = (2 * 2 ^ sz.val + A) * 2 ^ 64 + v
        rcases hsval with h | h <;> rw [h] at hA ⊢ <;> norm_num at hA ⊢ <;> omega
      · omega
    rw [show 67 + sz.val = (66 + sz.val) + 1 from by omega, feedBits_peel_last]
    have hX1 : (((2 * 2 ^ sz.val + A) * 2 ^ 64 + v) * 2) >>> 1
        = (2 * 2 ^ sz.val + A) * 2 ^ 64 + v := by
      rw [Nat.shiftRight_eq_div_pow]
      omega
    rw [hX1, hfeed]
    rw [eeprom_write_trigger_write sz A v sb0 sc0 _ ram hsval hA hv (by omega)]
  · -- 128 completion reads, all ones
    exact readN_ones 128 _ (by norm_num) (by norm_num) rfl
  · -- the Read command stream
    have hfeed : feedBits (2 + sz.val) (3 * 2 ^ sz.val + A)
        (⟨sz, EepromCmd.Write, 0, 0, 2 ^ 128 - 1, 0⟩, ram.storeBE64 (A % 1024 * 8) v)
        = (⟨sz, EepromCmd.Read, 3 * 2 ^ sz.val + A, 2 + sz.val, 2 ^ 128 - 1, 0⟩,
           ram.storeBE64 (A % 1024 * 8) v) := by
      rw [show 2 + sz.val = (1 + sz.val) + 1 from by omega]
      simp only [feedBits]
      have hb1 : (3 * 2 ^ sz.val + A) >>> (1 + sz.val) = 1 := by
        rw [Nat.shiftRight_eq_div_pow]
        rcases hsval with h | h <;> rw [h] at hA ⊢ <;> norm_num at hA ⊢ <;> omega
      rw [hb1, eeprom_write_step _ 1 _ (by norm_num)
        (by show (0:ℕ) + 1 ≠ 2 + sz.val + EepromCmd.Write.val; omega)]
      rw [show (1 + sz.val) = sz.val + 1 from by omega]
      simp only [feedBits]
      have hb2 : (3 * 2 ^ sz.val + A) >>> sz.val = 3 := by
        rw [Nat.shiftRight_eq_div_pow]
        rcases hsval with h | h <;> rw [h] at hA ⊢ <;> norm_num at hA ⊢ <;> omega
      rw [hb2, eeprom_write_latch_read _ 3 _ rfl
        (by show (2 * ((2 * 0 + 1 % 2) % 2 ^ 128) + 3 % 2) % 2 ^ 128 &&& 3 = 3; decide)]
      show feedBits sz.val (3 * 2 ^ sz.val + A)
          (⟨sz, EepromCmd.Read, 3, 2, 2 ^ 128 - 1, 0⟩, ram.storeBE64 (A % 1024 * 8) v) = _
      rw [feedBits_accumulate sz.val ⟨sz, EepromCmd.Read, 3, 2, 2 ^ 128 - 1, 0⟩ _
        (3 * 2 ^ sz.val + A) 2 rfl (le_refl 2)
        (by show (2:ℕ) + sz.val < 2 + sz.val + 1; omega)
        (by show (3:ℕ) < 2 ^ 128; norm_num)]
      refine congrArg₂ Prod.mk ?_ rfl
      congr 1
      · show ((3:ℕ) * 2 ^ sz.val + (3 * 2 ^ sz.val + A) % 2 ^ sz.val) % 2 ^ 128
          = 3 * 2 ^ sz.val + A
        rcases hsval with h | h <;> rw [h] at hA ⊢ <;> norm_num at hA ⊢ <;> omega
      · omega
    rw [show 3 + sz.val = (2 + sz.val) + 1 from by omega, feedBits_peel_last]
    have hX1 : ((3 * 2 ^ sz.val + A) * 2) >>> 1 = 3 * 2 ^ sz.val + A := by
      rw [Nat.shiftRight_eq_div_pow]
      omega
    rw [hX1, hfeed]
    rw [eeprom_write_trigger_read sz A _ _ _ _ hsval hA (by omega)]
    rw [loadBE64_of_bytes _ _ v _ hlen2 hv
      (by simpa [Ram.storeBE64] using hbytes)]

/-- C1 witness: the round trip at size E512, address 1,
value 0xDEADBEEFCAFEBABE, on a fresh 8 KiB save RAM. -/
theorem eeprom_write_then_read_roundtrip_witness :
    ((1:ℕ) < 2 ^ EepromSize.E512.val ∧ (0xDEADBEEFCAFEBABE:ℕ) < 2 ^ 64
      ∧ ((1:ℕ) &&& 0x3FF) * 8 + 8 ≤ (8192:ℕ))
    ∧ (Eeprom.read ⟨EepromSize.E512, EepromCmd.Read, 0, 0,
        ((2 ^ 128 - 1) * 2 ^ 64 + 0xDEADBEEFCAFEBABE) % 2 ^ 128, 0⟩).1 = 1 :=
  ⟨⟨by norm_num [EepromSize.val], by norm_num, by decide⟩,
   (eeprom_write_then_read_roundtrip EepromSize.E512 (Or.inl rfl) EepromCmd.Nothing 0 0
     ⟨8192, fun _ => 0xFF⟩ 1 0xDEADBEEFCAFEBABE (by norm_num [EepromSize.val]) (by norm_num)
     (by decide)).2.2.2.2.2⟩

/-! ## Theorems: wait states (C8) and IF acknowledge (C9) -/

theorem bitOf_eq_toNat_testBit (x i : ℕ) : bitOf x i = (x.testBit i).toNat := by
  unfold bitOf
  rw [Nat.and_one_is_mod, Nat.shiftRight_eq_div_pow, div_pow_mod_two_eq]

theorem isBit_eq_testBit (x i : ℕ) : isBit x i = x.testBit i := by
  unfold isBit
  rw [Nat.shiftLeft_eq, one_mul, Nat.and_two_pow]
  cases h : x.testBit i
  · simp
  · have h2 : (2 : ℕ) ^ i ≠ 0 := (pow_pos (by norm_num : (0 : ℕ) < 2) i).ne'
    simp [h2]

/-- **C8** (corrected): for every WAITCNT value `w`, EWRAM costs 6 (word) and
3 (half-word); palette/VRAM word costs 2; a ROM word access costs the
half-word access of the same kind plus a sequential half-word access; a
non-sequential half-word ROM access costs the `{5,4,3,9}` table entry picked
by the block's 2-bit WAITCNT field; and the sequential half-word ROM cost is
2 when the block's WAITCNT bit is set — not the 1 the spec states — and
3/5/9 (WS0/WS1/WS2) when it is clear. -/
theorem wait_state_table_values (w addr : ℕ) (ty : Access) :
    (0x02000000 ≤ addr → addr ≤ 0x02FFFFFF →
      calc_wait_time32 w addr ty = 6 ∧ calc_wait_time16 w addr ty = 3)
    ∧ (0x05000000 ≤ addr → addr ≤ 0x06FFFFFF → calc_wait_time32 w addr ty = 2)
    ∧ (0x08000000 ≤ addr → addr ≤ 0x0DFFFFFF →
      calc_wait_time32 w addr ty =
        calc_wait_time16 w addr ty + calc_wait_time16 w addr Access.Seq)
    ∧ (0x08000000 ≤ addr → addr ≤ 0x09FFFFFF →
      calc_wait_time16 w addr Access.NonSeq = WS_NONSEQ (bitsOf w 2 2)
      ∧ calc_wait_time16 w addr Access.Seq = if isBit w 4 then 2 else 3)
    ∧ (0x0A000000 ≤ addr → addr ≤ 0x0BFFFFFF →
      calc_wait_time16 w addr Access.NonSeq = WS_NONSEQ (bitsOf w 5 2)
      ∧ calc_wait_time16 w addr Access.Seq = if isBit w 7 then 2 else 5)
    ∧ (0x0C000000 ≤ addr → addr ≤ 0x0DFFFFFF →
      calc_wait_time16 w addr Access.NonSeq = WS_NONSEQ (bitsOf w 8 2)
      ∧ calc_wait_time16 w addr Access.Seq = if isBit w 10 then 2 else 9) := by
  refine ⟨fun h1 h2 => ⟨?_, ?_⟩, fun h1 h2 => ?_, fun h1 h2 => ?_,
    fun h1 h2 => ⟨?_, ?_⟩, fun h1 h2 => ⟨?_, ?_⟩, fun h1 h2 => ⟨?_, ?_⟩⟩
  · unfold calc_wait_time32
    rw [if_pos ⟨h1, h2⟩]
  · unfold calc_wait_time16
    rw [if_pos ⟨h1, h2⟩]
  · unfold calc_wait_time32
    rw [if_neg (by rintro ⟨ha, hb⟩; omega), if_pos ⟨h1, h2⟩]
  · unfold calc_wait_time32
    rw [if_neg (by rintro ⟨ha, hb⟩; omega), if_neg (by rintro ⟨ha, hb⟩; omega),
      if_pos ⟨h1, h2⟩]
  · unfold calc_wait_time16
    rw [if_neg (by rintro ⟨ha, hb⟩; omega),
      if_neg (by rintro ⟨-, -, hc⟩; exact Access.noConfusion hc),
      if_pos ⟨h1, h2, rfl⟩]
  · unfold calc_wait_time16
    rw [if_neg (by rintro ⟨ha, hb⟩; omega), if_pos ⟨h1, h2, rfl⟩,
      bitOf_eq_toNat_testBit, isBit_eq_testBit]
    cases h : w.testBit 4 <;> simp
  · unfold calc_wait_time16
    rw [if_neg (by rintro ⟨ha, hb⟩; omega),
      if_neg (by rintro ⟨-, hb, -⟩; omega),
      if_neg (by rintro ⟨-, hb, -⟩; omega),
      if_neg (by rintro ⟨-, -, hc⟩; exact Access.noConfusion hc),
      if_pos ⟨h1, h2, rfl⟩]
  · unfold calc_wait_time16
    rw [if_neg (by rintro ⟨ha, hb⟩; omega),
      if_neg (by rintro ⟨-, hb, -⟩; omega),
      if_neg (by rintro ⟨-, hb, -⟩; omega),
      if_pos ⟨h1, h2, rfl⟩, bitOf_eq_toNat_testBit, isBit_eq_testBit]
    cases h : w.testBit 7 <;> simp
  · unfold calc_wait_time16
    rw [if_neg (by rintro ⟨ha, hb⟩; omega),
      if_neg (by rintro ⟨-, hb, -⟩; omega),
      if_neg (by rintro ⟨-, hb, -⟩; omega),
      if_neg (by rintro ⟨-, hb, -⟩; omega),
      if_neg (by rintro ⟨-, hb, -⟩; omega),
      if_neg (by rintro ⟨-, -, hc⟩; exact Access.noConfusion hc),
      if_pos ⟨h1, h2, rfl⟩]
  · unfold calc_wait_time16
    rw [if_neg (by rintro ⟨ha, hb⟩; omega),
      if_neg (by rintro ⟨-, hb, -⟩; omega),
      if_neg (by rintro ⟨-, hb, -⟩; omega),
      if_neg (by rintro ⟨-, hb, -⟩; omega),
      if_neg (by rintro ⟨-, hb, -⟩; omega),
      if_pos ⟨h1, h2, rfl⟩, bitOf_eq_toNat_testBit, isBit_eq_testBit]
    cases h : w.testBit 10 <;> simp

/-- **C8 witness**: at WAITCNT = 0x11 (WS0 sequential bit set, WS0 non-seq
field 0), a sequential WS0 half-word access costs 2 and a non-sequential one
costs 5; an EWRAM word access costs 6. -/
theorem wait_state_table_values_witness :
    calc_wait_time32 0x11 0x02000000 Access.Seq = 6
    ∧ calc_wait_time16 0x11 0x08000000 Access.Seq = 2
    ∧ calc_wait_time16 0x11 0x08000000 Access.NonSeq = 5 := by
  refine ⟨((wait_state_table_values 0x11 0x02000000 Access.Seq).1
      (by norm_num) (by norm_num)).1, ?_, ?_⟩
  · have h := ((wait_state_table_values 0x11 0x08000000 Access.Seq).2.2.2.1
      (by norm_num) (by norm_num)).2
    rw [h]
    decide
  · have h := ((wait_state_table_values 0x11 0x08000000 Access.NonSeq).2.2.2.1
      (by norm_num) (by norm_num)).1
    rw [h]
    decide

/-- **C8 counterexample**: with WAITCNT bit 4 set, the sequential WS0
half-word cost computed by `calc_wait_time` is 2 — neither the 1 the spec's
"3/1" table states nor 3. -/
theorem wait_state_table_values_cex :
    calc_wait_time16 0x10 0x08000000 Access.Seq = 2
    ∧ calc_wait_time16 0x10 0x08000000 Access.Seq ≠ 1
    ∧ calc_wait_time16 0x10 0x08000000 Access.Seq ≠ 3 := by
  decide

/-- **C9**: an MMIO write of `v` to IF (offset 0x202) clears exactly the IF
bits set in `v` — bit `i` of the new IF is `old AND NOT v` at `i` — and never
sets a bit; the cached BIOS read value becomes 0xE55EC002 if it was
0xE25EF004 and is unchanged otherwise. -/
theorem if_acknowledge (ifv bios v : ℕ) (hif : ifv < 2 ^ 16) (hv : v < 2 ^ 16) :
    (∀ i, ((set_mmio_if ifv bios v).1).testBit i
      = (ifv.testBit i && !(v.testBit i)))
    ∧ (∀ i, ((set_mmio_if ifv bios v).1).testBit i = true →
        ifv.testBit i = true)
    ∧ (bios = 0xE25EF004 → (set_mmio_if ifv bios v).2 = 0xE55EC002)
    ∧ (bios ≠ 0xE25EF004 → (set_mmio_if ifv bios v).2 = bios) := by
  refine ⟨fun i => ?_, fun i h => ?_, fun h => ?_, fun h => ?_⟩
  · show (ifv &&& (v ^^^ 0xFFFF)).testBit i = _
    rw [Nat.testBit_and, Nat.testBit_xor,
      show (0xFFFF : ℕ) = 2 ^ 16 - 1 by norm_num, Nat.testBit_two_pow_sub_one]
    rcases lt_or_ge i 16 with hlt | hge
    · simp [hlt]
    · have hiv : ifv.testBit i = false :=
        Nat.testBit_lt_two_pow
          (lt_of_lt_of_le hif (Nat.pow_le_pow_right (by norm_num) hge))
      simp [hiv]
  · have h2 : (ifv &&& (v ^^^ 0xFFFF)).testBit i = true := h
    rw [Nat.testBit_and] at h2
    simp only [Bool.and_eq_true] at h2
    exact h2.1
  · simp [set_mmio_if, h]
  · simp [set_mmio_if, h]

/-- **C9 witness**: with IF = 0x000F, BIOS value 0xE25EF004 and v = 0x0005,
bit 0 of the new IF is `testBit 15 0 && !testBit 5 0` (i.e. cleared) and the
BIOS value becomes 0xE55EC002. -/
theorem if_acknowledge_witness :
    ((set_mmio_if 0x000F 0xE25EF004 0x0005).1).testBit 0
      = (Nat.testBit 0x000F 0 && !(Nat.testBit 0x0005 0))
    ∧ (set_mmio_if 0x000F 0xE25EF004 0x0005).2 = 0xE55EC002 := by
  have h := if_acknowledge 0x000F 0xE25EF004 0x0005 (by norm_num) (by norm_num)
  exact ⟨h.1 0, h.2.2.1 rfl⟩

/-! ## Theorems: out-of-bounds ROM reads (C3) -/

theorem and_mask_align4 (x : ℕ) (h : x < 2 ^ 32) : x &&& 0xFFFFFFFC = x / 4 * 4 := by
  have h1 : (0xFFFFFFFC : ℕ) = (2 ^ 30 - 1) <<< 2 := by norm_num [Nat.shiftLeft_eq]
  have h2 : x / 4 * 4 = (x >>> 2) <<< 2 := by
    rw [Nat.shiftRight_eq_div_pow, Nat.shiftLeft_eq]
  apply Nat.eq_of_testBit_eq
  intro i
  rw [Nat.testBit_and, h1, Nat.testBit_shiftLeft, h2, Nat.testBit_shiftLeft,
    Nat.testBit_shiftRight, Nat.testBit_two_pow_sub_one]
  by_cases h2i : 2 ≤ i
  · have he : 2 + (i - 2) = i := by omega
    rw [he]
    by_cases h30 : i - 2 < 30
    · simp [h2i, h30]
    · have hx : x.testBit i = false :=
        Nat.testBit_lt_two_pow
          (lt_of_lt_of_le h (Nat.pow_le_pow_right (by norm_num) (by omega)))
      simp [h2i, h30, hx]
  · simp [h2i]

set_option maxHeartbeats 1000000 in
/-- **C3** (corrected): for every address in the ROM windows
0x0800_0000..=0x0DFF_7FFF whose enclosing 32 KiB page lies beyond the end of
the loaded ROM, the untimed word read succeeds and returns the cartridge
address echo: the low half is the low 16 bits of the word-aligned address
shifted right by one, and the high half is that value plus one (mod 2^16) —
not the same value in both halves as the spec states. -/
theorem rom_oob_word_read (g : GGA) (fuel addr : ℕ)
    (h1 : 0x8000000 ≤ addr) (h2 : addr ≤ 0xDFF7FFF)
    (hrom : g.cart.rom.len + addr % 0x8000 < addr &&& 0x1FFFFFF) :
    GGA.get_word g (fuel + 2) addr
      = some (word (((addr &&& 0xFFFFFFFC) >>> 1) % 2 ^ 16)
          ((((addr &&& 0xFFFFFFFC) >>> 1) % 2 ^ 16 + 1) % 2 ^ 16)) := by
  have hmask : addr &&& 0x1FFFFFF = addr % 0x2000000 := by
    have e : (0x1FFFFFF : ℕ) = 2 ^ 25 - 1 := by norm_num
    rw [e, Nat.and_pow_two_sub_one_eq_mod]
  rw [hmask] at hrom
  have hal : addr &&& 0xFFFFFFFC = addr / 4 * 4 := and_mask_align4 addr (by omega)
  have hpb : ((addr &&& 0xFFFFFFFC) >>> 15) &&& 8191 = addr / 0x8000 := by
    rw [hal, Nat.shiftRight_eq_div_pow]
    have e : (8191 : ℕ) = 2 ^ 13 - 1 := by norm_num
    rw [e, Nat.and_pow_two_sub_one_eq_mod]
    norm_num
    omega
  have hnone : GGA.get_page_f g true 2 (addr / 0x8000 * 0x8000) = none := by
    show GGA.get_page_f g true (1 + 1) (addr / 0x8000 * 0x8000) = none
    unfold GGA.get_page_f
    rw [if_neg (by rintro ⟨ha, hb⟩; omega), if_neg (by rintro ⟨ha, hb⟩; omega),
      if_neg (by rintro ⟨ha, hb⟩; omega), if_neg (by rintro ⟨ha, hb⟩; omega),
      if_neg (by rintro ⟨ha, hb⟩; omega),
      if_neg (by rintro ⟨ha, hb, hc, hd⟩; omega),
      if_neg (by rintro ⟨ha, hb, hc, hd⟩; omega),
      if_neg (by rintro ⟨ha, hb, hc, hd⟩; omega),
      if_neg (by rintro ⟨ha, hb⟩; omega), if_neg (by rintro ⟨ha, hb⟩; omega)]
  have hpage : GGA.page g false (addr &&& 0xFFFFFFFC) = none := by
    unfold GGA.page
    simp only [Bool.not_false, PAGE_SIZE, hpb, hnone]
  show GGA.get_word g (fuel + 1 + 1) addr = _
  unfold GGA.get_word
  rw [hpage]
  rw [if_neg (by rintro ⟨ha, hb⟩; omega), if_neg (by omega),
    if_neg (by rintro ⟨ha, hb⟩; omega), if_neg (by rintro ⟨ha, hb⟩; omega),
    if_neg (by rintro ⟨ha, hb⟩; omega)]
  show GGA.invalid_read g true (fuel + 1) addr = _
  unfold GGA.invalid_read
  rw [if_pos ⟨by omega, by omega⟩]
  rfl

/-- A concrete console state with a 4-byte ROM: every ROM-window page lies
beyond the end of the ROM. -/
def gC3 : GGA :=
  { ewram := ⟨0, fun _ => 0⟩, iwram := ⟨0, fun _ => 0⟩, palette := ⟨0, fun _ => 0⟩,
    vram := ⟨0, fun _ => 0⟩, oam := ⟨0, fun _ => 0⟩,
    cart := ⟨⟨4, fun _ => 0⟩, ⟨0, fun _ => 0⟩, SaveType.Nothing⟩,
    biosValue := 0, biosData := fun _ => 0, pc := 0, thumb := false,
    mmioRead := fun _ => 0 }

/-- **C3 witness**: with a 4-byte ROM, the word read at 0x0900_0000 succeeds
and returns `word(0x0000, 0x0001) = 0x10000`. -/
theorem rom_oob_word_read_witness : GGA.get_word gC3 2 0x9000000 = some 0x10000 := by
  have h := rom_oob_word_read gC3 0 0x9000000 (by norm_num) (by norm_num) (by decide)
  exact h

/-- **C3 counterexample**: at 0x0900_0000 with a 4-byte ROM the returned
word is 0x10000, whose halves are 0x0000 and 0x0001 — not the equal-halves
value `word(low, low)` the claim states. -/
theorem rom_oob_word_read_cex :
    GGA.get_word gC3 2 0x9000000 = some 0x10000
    ∧ (0x10000 : ℕ) ≠ word (((0x9000000 : ℕ) >>> 1) % 2 ^ 16)
        (((0x9000000 : ℕ) >>> 1) % 2 ^ 16) := by
  refine ⟨by decide, by decide⟩

/-! ## Theorems: unaligned load rotation (C7) -/

theorem Ram.get_lt_256 (r : Ram) (i : ℕ) : r.get i < 256 := by
  unfold Ram.get
  split
  · exact Nat.mod_lt _ (by norm_num)
  · norm_num

theorem Ram.readLE_lt (r : Ram) (n : ℕ) : ∀ off, Ram.readLE r off n < 2 ^ (8 * n) := by
  induction n with
  | zero =>
    intro off
    simp [Ram.readLE]
  | succ n ih =>
    intro off
    have h1 : r.get off < 2 ^ (8 * (n + 1)) :=
      lt_of_lt_of_le (Ram.get_lt_256 r off)
        (by
          have : (256 : ℕ) = 2 ^ 8 := by norm_num
          rw [this]
          exact Nat.pow_le_pow_right (by norm_num) (by omega))
    have h2 : Ram.readLE r (off + 1) n <<< 8 < 2 ^ (8 * (n + 1)) := by
      rw [Nat.shiftLeft_eq]
      have he : 2 ^ (8 * (n + 1)) = 2 ^ (8 * n) * 2 ^ 8 := by
        ring
      rw [he]
      exact (Nat.mul_lt_mul_right (by norm_num)).mpr (ih (off + 1))
    exact Nat.or_lt_two_pow h1 h2

theorem ror_s0_zero (v : ℕ) (hv : v < 2 ^ 32) : ror_s0 v 0 = v := by
  unfold ror_s0
  rw [Nat.zero_mod, Nat.shiftRight_zero, Nat.sub_zero, Nat.shiftLeft_eq]
  apply Nat.eq_of_testBit_eq
  intro i
  rw [Nat.testBit_mod_two_pow, Nat.testBit_or]
  by_cases h : i < 32
  · have h32 : ¬ 32 ≤ i := by omega
    have hm : v * 4294967296 = 2 ^ 32 * v := by ring
    rw [hm, Nat.testBit_mul_pow_two]
    simp [h, h32]
  · have hx : v.testBit i = false :=
      Nat.testBit_lt_two_pow
        (lt_of_lt_of_le hv (Nat.pow_le_pow_right (by norm_num) (by omega)))
    simp [h, hx]

theorem and_and_self (x m : ℕ) : (x &&& m) &&& m = x &&& m := by
  rw [Nat.and_assoc, Nat.and_self]

/-- **C7** (corrected): for every address whose enclosing page is mapped in
the read page table, the LDR/SWP word load equals the word read at the
aligned address `addr & !3` rotated right by `(addr & 3) * 8` bits, and the
half-word load at an odd address equals the half-word at `addr & !1` rotated
right by 8.  (On non-page-backed addresses — MMIO, SRAM, EEPROM — the slow
read path does not implement this relation; see the counterexample.) -/
theorem unaligned_rotation (g : GGA) (fuel addr o1 o2 : ℕ) (r1 r2 : Ram)
    (hw : GGA.page g false (addr &&& 0xFFFFFFFC) = some (r1, o1))
    (hh : GGA.page g false (addr &&& 0xFFFFFFFE) = some (r2, o2)) :
    GGA.read_word_ldrswp_val g (fuel + 1) addr
      = (GGA.get_word g (fuel + 1) (addr &&& 0xFFFFFFFC)).map
          (fun v => ror_s0 v ((addr &&& 3) <<< 3))
    ∧ (isBit addr 0 = true →
        GGA.read_hword_val g (fuel + 1) addr
          = (GGA.get_hword g (fuel + 1) (addr &&& 0xFFFFFFFE)).map
              (fun v => ror_s0 v 8)) := by
  have hword1 : GGA.get_word g (fuel + 1) addr = some (Ram.readLE r1 o1 4) := by
    unfold GGA.get_word
    rw [hw]
  have hword2 : GGA.get_word g (fuel + 1) (addr &&& 0xFFFFFFFC)
      = some (Ram.readLE r1 o1 4) := by
    unfold GGA.get_word
    rw [and_and_self, hw]
  constructor
  · unfold GGA.read_word_ldrswp_val
    rw [hword1, hword2]
    simp only [Option.map]
    by_cases h3 : addr &&& 3 = 0
    · rw [if_neg (by simp [h3]), h3, Nat.zero_shiftLeft,
        ror_s0_zero _ (Ram.readLE_lt r1 4 o1)]
    · rw [if_pos h3]
  · intro hob
    have hh1 : GGA.get_hword g (fuel + 1) addr = some (Ram.readLE r2 o2 2) := by
      unfold GGA.get_hword
      rw [hh]
    have hh2 : GGA.get_hword g (fuel + 1) (addr &&& 0xFFFFFFFE)
        = some (Ram.readLE r2 o2 2) := by
      unfold GGA.get_hword
      rw [and_and_self, hh]
    unfold GGA.read_hword_val
    rw [if_pos hob, hh1, hh2]

/-- The spec's unaligned-LDR example state: EWRAM with 0x12345678 stored
little-endian at 0x0200_0000. -/
def gW : GGA :=
  { ewram := ⟨0x40000, fun i =>
      if i = 0 then 0x78 else if i = 1 then 0x56 else
      if i = 2 then 0x34 else if i = 3 then 0x12 else 0⟩,
    iwram := ⟨0, fun _ => 0⟩, palette := ⟨0, fun _ => 0⟩,
    vram := ⟨0, fun _ => 0⟩, oam := ⟨0, fun _ => 0⟩,
    cart := ⟨⟨0, fun _ => 0⟩, ⟨0, fun _ => 0⟩, SaveType.Nothing⟩,
    biosValue := 0, biosData := fun _ => 0, pc := 0, thumb := false,
    mmioRead := fun _ => 0 }

/-- **C7 witness**: with EWRAM[0x0200_0000..] = 78 56 34 12, the LDR/SWP
word load at 0x0200_0001 yields ROR(0x12345678, 8) = 0x78123456. -/
theorem unaligned_rotation_witness :
    GGA.read_word_ldrswp_val gW 2 0x2000001 = some 0x78123456 := by
  have h := (unaligned_rotation gW 1 0x2000001 0 0 gW.ewram gW.ewram rfl rfl).1
  rw [show (2 : ℕ) = 1 + 1 from rfl, h]
  rfl

/-- A console state whose MMIO reads return the low 16 bits of the address:
the MMIO slow path reads both halves relative to the unaligned address. -/
def gC7 : GGA :=
  { ewram := ⟨0, fun _ => 0⟩, iwram := ⟨0, fun _ => 0⟩, palette := ⟨0, fun _ => 0⟩,
    vram := ⟨0, fun _ => 0⟩, oam := ⟨0, fun _ => 0⟩,
    cart := ⟨⟨0, fun _ => 0⟩, ⟨0, fun _ => 0⟩, SaveType.Nothing⟩,
    biosValue := 0, biosData := fun _ => 0, pc := 0, thumb := false,
    mmioRead := fun a => a &&& 0xFFFF }

/-- **C7 counterexample**: at the MMIO address 0x0400_0002 the LDR/SWP word
load returns 0x20004, but the word stored at the aligned address rotated
right by `(addr & 3) * 8` is 2 — the claim's universal rotation relation
fails off the page tables. -/
theorem unaligned_rotation_cex :
    GGA.read_word_ldrswp_val gC7 2 0x4000002 = some 0x20004
    ∧ (GGA.get_word gC7 2 0x4000000).map
        (fun v => ror_s0 v (((0x4000002 : ℕ) &&& 3) <<< 3)) = some 2
    ∧ (0x20004 : ℕ) ≠ 2 := by
  refine ⟨by rfl, by rfl, by norm_num⟩

/-! ## Theorems: DMA transfers and arbitration (C10, C2) -/

theorem perform_transfer_early (WORD : Bool) (g : DmaGG) (idx count : ℕ)
    (sm dm : ℤ) (h : g.dst idx < 0x2000000) :
    Dmas.perform_transfer WORD g idx count sm dm = g := by
  unfold Dmas.perform_transfer
  rw [if_pos h]

/-- **C10**: a DMA transfer whose internal destination register is below
0x0200_0000 is skipped before any effect: `perform_transfer` performs no bus
access (the log is unchanged), leaves the internal source and destination
registers and the cache unchanged, advances neither the clock nor the
internal-cycle counter, and returns the state unchanged — for every channel,
count, stride and width. -/
theorem dma_transfer_skip (WORD : Bool) (g : DmaGG) (idx count : ℕ)
    (sm dm : ℤ) (h : g.dst idx < 0x2000000) :
    (Dmas.perform_transfer WORD g idx count sm dm).log = g.log
    ∧ (Dmas.perform_transfer WORD g idx count sm dm).src = g.src
    ∧ (Dmas.perform_transfer WORD g idx count sm dm).dst = g.dst
    ∧ (Dmas.perform_transfer WORD g idx count sm dm).cache = g.cache
    ∧ (Dmas.perform_transfer WORD g idx count sm dm).clock = g.clock
    ∧ (Dmas.perform_transfer WORD g idx count sm dm).iCycles = g.iCycles
    ∧ Dmas.perform_transfer WORD g idx count sm dm = g := by
  rw [perform_transfer_early WORD g idx count sm dm h]
  exact ⟨rfl, rfl, rfl, rfl, rfl, rfl, rfl⟩

/-- A concrete DMA state: destination registers all 0, one queued channel. -/
def gD : DmaGG :=
  { mmio := fun _ => 0, src := fun _ => 0x3000000, dst := fun _ => 0,
    cache := 0xAB, running := 99, queued := [(1, DmaReason.CtrlWrite)],
    cart := ⟨⟨0, fun _ => 0⟩, ⟨0, fun _ => 0⟩, SaveType.Nothing⟩,
    busVal := fun _ => 0, clock := 7, iCycles := 3, log := [] }

/-- **C10 witness**: on `gD` (destination 0), a 4-unit word transfer with
stride 2 is a complete no-op. -/
theorem dma_transfer_skip_witness :
    Dmas.perform_transfer true gD 0 4 2 2 = gD := by
  exact (dma_transfer_skip true gD 0 4 2 2 (by decide)).2.2.2.2.2.2

/-- MMIO (u16) index of DMA channel `d`'s control register:
`(base_addr d + 0xA) >> 1`. -/
def DmaCtrlIdx (d : ℕ) : ℕ := 0x5D + 6 * d

/-- A channel/reason pair that `step_dma` will process immediately when no
DMA is running: an immediate-mode (ctrl bits 12-13 = 0) control write with
the enable bit set, word-sized, no destination reload, no IRQ, and a
destination below 0x0200_0000 (so the transfer itself is skipped). -/
def Elig (g : DmaGG) (p : ℕ × DmaReason) : Prop :=
  p.2 = DmaReason.CtrlWrite ∧ p.1 < 4
  ∧ isBit (g.mmio (DmaCtrlIdx p.1)) 15 = true
  ∧ bitsOf (g.mmio (DmaCtrlIdx p.1)) 12 2 = 0
  ∧ bitsOf (g.mmio (DmaCtrlIdx p.1)) 5 2 ≠ 3
  ∧ isBit (g.mmio (DmaCtrlIdx p.1)) 10 = true
  ∧ isBit (g.mmio (DmaCtrlIdx p.1)) 14 = false
  ∧ g.dst p.1 < 0x2000000

/-- The state after `step_dma` has processed one eligible channel `d` (not
counting the queue pop): the ghost start marker is logged and the channel's
enable bit is cleared by the immediate-mode disable write. -/
def afterRun (g : DmaGG) (d : ℕ) : DmaGG :=
  { g with log := g.log ++ [BusEvt.start d],
           mmio := updAt g.mmio (DmaCtrlIdx d) (setBit16 (g.mmio (DmaCtrlIdx d)) 15 false) }


/-- Processing one eligible channel: `step_dma` logs the start marker, skips
the transfer (destination below 0x0200_0000), clears the enable bit of the
channel's control register, restores `running`, and proceeds to the popped
last queue entry, if any. -/
theorem step_dma_run (fuel : ℕ) (g : DmaGG) (d : ℕ)
    (he : Elig g (d, DmaReason.CtrlWrite)) (hrun : g.running = 99) :
    Dmas.step_dma (fuel + 1) g d (Dmas.base_addr d) (g.reg (Dmas.base_addr d + 0xA))
        DmaReason.CtrlWrite
      = match g.queued.getLast? with
        | some pr =>
          Dmas.step_dma fuel { afterRun g d with queued := g.queued.dropLast } pr.1
            (Dmas.base_addr pr.1)
            (DmaGG.reg { afterRun g d with queued := g.queued.dropLast }
              (Dmas.base_addr pr.1 + 0xA)) pr.2
        | none => some (afterRun g d) := by
  obtain ⟨-, hd4, h15, hmode, hdraw, h10, h14, hdst⟩ := he
  have haddr : (Dmas.base_addr d + 0xA) >>> 1 = DmaCtrlIdx d := by
    unfold Dmas.base_addr DmaCtrlIdx
    rw [Nat.shiftRight_eq_div_pow]
    norm_num
    omega
  have hreg : g.reg (Dmas.base_addr d + 0xA) = g.mmio (DmaCtrlIdx d) := by
    unfold DmaGG.reg
    rw [haddr]
  have hnrun : ¬ (g.running ≤ d) := by omega
  have hnn : ¬ (99 ≤ d) := by omega
  conv_lhs => unfold Dmas.step_dma
  rw [hreg]
  simp [hmode, h15, h10, h14, hrun, hdraw, hnn, DmaGG.reg, DmaGG.setReg, afterRun,
    haddr, perform_transfer_early, hdst]

theorem DmaCtrlIdx_inj {a b : ℕ} (h : DmaCtrlIdx a = DmaCtrlIdx b) : a = b := by
  unfold DmaCtrlIdx at h
  omega

theorem Elig_of_eq (g g2 : DmaGG) (p : ℕ × DmaReason) (h : Elig g p)
    (hm : g2.mmio (DmaCtrlIdx p.1) = g.mmio (DmaCtrlIdx p.1))
    (hd : g2.dst p.1 = g.dst p.1) : Elig g2 p := by
  obtain ⟨a, b, c, d2, e, f, h7, h8⟩ := h
  exact ⟨a, b, by rw [hm]; exact c, by rw [hm]; exact d2, by rw [hm]; exact e,
    by rw [hm]; exact f, by rw [hm]; exact h7, by rw [hd]; exact h8⟩

/-- Draining: starting an eligible channel `d` with queue `q` (all entries
eligible, channels pairwise distinct) starts `d` and then the entries of `q`
from the back to the front, emptying the queue. -/
theorem drain_aux (q : List (ℕ × DmaReason)) :
    ∀ (fuel : ℕ) (g : DmaGG) (d : ℕ),
    g.queued = q →
    g.running = 99 →
    (∀ p ∈ (d, DmaReason.CtrlWrite) :: q, Elig g p) →
    (((d, DmaReason.CtrlWrite) :: q).map Prod.fst).Nodup →
    ∃ g2, Dmas.step_dma (fuel + q.length + 1) g d (Dmas.base_addr d)
        (g.reg (Dmas.base_addr d + 0xA)) DmaReason.CtrlWrite = some g2
      ∧ g2.log = g.log ++ BusEvt.start d :: (q.reverse.map fun p => BusEvt.start p.1)
      ∧ g2.queued = []
      ∧ g2.running = 99
      ∧ g2.dst = g.dst
      ∧ (∀ i, (∀ p ∈ (d, DmaReason.CtrlWrite) :: q, i ≠ DmaCtrlIdx p.1) →
          g2.mmio i = g.mmio i) := by
  induction q using List.reverseRecOn with
  | nil =>
    intro fuel g d hq hrun helig hnodup
    have hE : Elig g (d, DmaReason.CtrlWrite) := helig _ (List.mem_cons_self _ _)
    refine ⟨afterRun g d, ?_, ?_, ?_, ?_, ?_, ?_⟩
    · simp only [List.length_nil, Nat.add_zero]
      rw [step_dma_run fuel g d hE hrun, hq]
      rfl
    · simp [afterRun]
    · show g.queued = []
      exact hq
    · exact hrun
    · rfl
    · intro i hi
      have hid : i ≠ DmaCtrlIdx d := hi _ (List.mem_cons_self _ _)
      simp [afterRun, updAt, hid]
  | append_singleton q2 p ih =>
    intro fuel g d hq hrun helig hnodup
    have hE : Elig g (d, DmaReason.CtrlWrite) := helig _ (List.mem_cons_self _ _)
    have hEp : Elig g p := helig _ (by simp)
    obtain ⟨p1, p2⟩ := p
    have hp2 : p2 = DmaReason.CtrlWrite := hEp.1
    subst hp2
    simp only [List.map_cons, List.map_append, List.map_cons, List.map_nil,
      List.nodup_cons, List.nodup_append, List.mem_append, List.mem_map,
      List.mem_cons, List.mem_singleton] at hnodup
    have hdq : ∀ r ∈ q2, r.1 ≠ d := fun r hr h => hnodup.1 (Or.inl ⟨r, hr, h⟩)
    have hdp : p1 ≠ d := fun h => hnodup.1 (Or.inr (Or.inl h.symm))
    have hpq : p1 ∉ List.map Prod.fst q2 :=
      fun hmem => hnodup.2.2.2 hmem (List.mem_singleton.mpr rfl)
    have hnodup1 : (((p1, DmaReason.CtrlWrite) :: q2).map Prod.fst).Nodup := by
      simp only [List.map_cons, List.nodup_cons]
      exact ⟨hpq, hnodup.2.1⟩
    have hG1m : ∀ x, x ≠ d →
        ({ afterRun g d with queued := q2 } : DmaGG).mmio (DmaCtrlIdx x)
          = g.mmio (DmaCtrlIdx x) := by
      intro x hx
      show updAt g.mmio (DmaCtrlIdx d) (setBit16 (g.mmio (DmaCtrlIdx d)) 15 false)
        (DmaCtrlIdx x) = g.mmio (DmaCtrlIdx x)
      unfold updAt
      rw [if_neg (fun hcc => hx (DmaCtrlIdx_inj hcc))]
    have helig1 : ∀ r ∈ (p1, DmaReason.CtrlWrite) :: q2,
        Elig { afterRun g d with queued := q2 } r := by
      intro r hr
      rcases List.mem_cons.mp hr with hr0 | hrq
      · subst hr0
        exact Elig_of_eq g _ _ hEp (hG1m p1 hdp) rfl
      · exact Elig_of_eq g _ r (helig r (by simp [hrq]))
          (hG1m r.1 (hdq r hrq)) rfl
    obtain ⟨g2, heq, hlog, hqd, hrn, hdst2, hmm⟩ :=
      ih fuel { afterRun g d with queued := q2 } p1 rfl hrun helig1 hnodup1
    refine ⟨g2, ?_, ?_, hqd, hrn, ?_, ?_⟩
    · have hlen : (q2 ++ [(p1, DmaReason.CtrlWrite)]).length = q2.length + 1 := by
        simp
      have hfe : fuel + (q2 ++ [(p1, DmaReason.CtrlWrite)]).length + 1
          = fuel + q2.length + 1 + 1 := by omega
      rw [hfe, step_dma_run (fuel + q2.length + 1) g d hE hrun, hq]
      simp only [List.getLast?_concat, List.dropLast_concat]
      exact heq
    · rw [hlog]
      show (g.log ++ [BusEvt.start d]) ++ _ = _
      simp
    · rw [hdst2]
      rfl
    · intro i hi
      have h1 : g2.mmio i = ({ afterRun g d with queued := q2 } : DmaGG).mmio i := by
        apply hmm
        intro r hr
        rcases List.mem_cons.mp hr with hr0 | hrq
        · subst hr0
          exact hi (p1, DmaReason.CtrlWrite) (by simp)
        · exact hi r (by simp [hrq])
      rw [h1]
      show updAt g.mmio (DmaCtrlIdx d) (setBit16 (g.mmio (DmaCtrlIdx d)) 15 false) i
        = g.mmio i
      unfold updAt
      rw [if_neg (hi (d, DmaReason.CtrlWrite) (List.mem_cons_self _ _))]


set_option maxHeartbeats 1000000 in
/-- **C2** (corrected): (a) when a DMA trigger fires while a channel whose
number is not above the new one is running (`running <= idx`), the new
channel/reason pair is appended to the back of the queue (capacity 3) and no
transfer is started; (b) when the running transfer completes, the queued
transfers are started in reverse order of enqueueing — the queue is an
`ArrayVec` drained with `pop()`, i.e. last-in-first-out, not the
first-in-first-out order the spec states. -/
theorem dma_queue_lifo :
    (∀ (fuel : ℕ) (g : DmaGG) (idx base ctrl : ℕ),
      isBit ctrl 15 = true → bitsOf ctrl 12 2 = 0 →
      g.running ≤ idx → g.queued.length < 3 →
      Dmas.step_dma (fuel + 1) g idx base ctrl DmaReason.CtrlWrite
        = some { g with queued := g.queued ++ [(idx, DmaReason.CtrlWrite)] })
    ∧ (∀ (fuel : ℕ) (g : DmaGG) (d : ℕ),
      g.running = 99 →
      (∀ p ∈ (d, DmaReason.CtrlWrite) :: g.queued, Elig g p) →
      (((d, DmaReason.CtrlWrite) :: g.queued).map Prod.fst).Nodup →
      ∃ g2, Dmas.step_dma (fuel + g.queued.length + 1) g d (Dmas.base_addr d)
          (g.reg (Dmas.base_addr d + 0xA)) DmaReason.CtrlWrite = some g2
        ∧ g2.log = g.log ++ BusEvt.start d
            :: (g.queued.reverse.map fun p => BusEvt.start p.1)
        ∧ g2.queued = []) := by
  constructor
  · intro fuel g idx base ctrl h15 hmode hrun hlen
    conv_lhs => unfold Dmas.step_dma
    simp [h15, hmode, hrun, hlen]
  · intro fuel g d hrun helig hnodup
    obtain ⟨g2, heq, hlog, hqd, -, -, -⟩ :=
      drain_aux g.queued fuel g d rfl hrun helig hnodup
    exact ⟨g2, heq, hlog, hqd⟩

/-- A state with no DMA running (99) and channels 1 and 2 queued, in that
order; all four control registers are immediate-mode, word-sized, enabled,
with destination 0. -/
def gQ : DmaGG :=
  { mmio := fun i => if i = 0x5D ∨ i = 0x63 ∨ i = 0x69 then 0x8400 else 0,
    src := fun _ => 0, dst := fun _ => 0, cache := 0, running := 99,
    queued := [(1, DmaReason.CtrlWrite), (2, DmaReason.CtrlWrite)],
    cart := ⟨⟨0, fun _ => 0⟩, ⟨0, fun _ => 0⟩, SaveType.Nothing⟩,
    busVal := fun _ => 0, clock := 0, iCycles := 0, log := [] }

/-- Like `gQ`, but with channel 0 running and nothing queued. -/
def gA : DmaGG := { gQ with running := 0, queued := [] }

/-- **C2 witness**: a control write for channel 2 while channel 0 runs puts
`(2, CtrlWrite)` at the back of the queue and starts nothing; and starting
channel 0 on `gQ` (channels 1 then 2 queued) starts 0, 2, 1 and empties the
queue. -/
theorem dma_queue_lifo_witness :
    Dmas.step_dma 1 gA 2 (Dmas.base_addr 2) 0x8000 DmaReason.CtrlWrite
      = some { gA with queued := [(2, DmaReason.CtrlWrite)] }
    ∧ ∃ g2, Dmas.step_dma 3 gQ 0 (Dmas.base_addr 0)
          (gQ.reg (Dmas.base_addr 0 + 0xA)) DmaReason.CtrlWrite = some g2
        ∧ g2.log = [BusEvt.start 0, BusEvt.start 2, BusEvt.start 1]
        ∧ g2.queued = [] := by
  constructor
  · exact dma_queue_lifo.1 0 gA 2 (Dmas.base_addr 2) 0x8000 (by decide) (by decide)
      (by decide) (by decide)
  · obtain ⟨g2, heq, hlog, hqd⟩ := dma_queue_lifo.2 0 gQ 0 rfl
      (by simp only [Elig]; decide) (by decide)
    refine ⟨g2, heq, ?_, hqd⟩
    rw [hlog]
    rfl

/-- **C2 counterexample**: with channels 1 and 2 enqueued in that order, the
observed start order is 0, 2, 1 — not the first-in-first-out order 0, 1, 2
the claim states. -/
theorem dma_queue_lifo_cex :
    (Dmas.step_dma 3 gQ 0 (Dmas.base_addr 0) (gQ.reg (Dmas.base_addr 0 + 0xA))
        DmaReason.CtrlWrite).map DmaGG.log
      = some [BusEvt.start 0, BusEvt.start 2, BusEvt.start 1]
    ∧ [BusEvt.start 0, BusEvt.start 2, BusEvt.start 1]
      ≠ [BusEvt.start 0, BusEvt.start 1, BusEvt.start 2] := by
  exact ⟨by rfl, by decide⟩
